import Mathlib

/-!
Verification development for the election data aggregation and merge engine
(src/src/utils/elections.ts of the izbori repository).

The TypeScript source is shallowly embedded: CSV rows become association
lists from column names to dynamic values, JavaScript numbers are modelled
as rationals extended with the three non-finite IEEE values (positive and
negative infinity, NaN) so that division by zero and NaN propagation behave
as in JavaScript, and the module-level promise cache becomes explicit state
passing with an invocation flag standing for one call of the underlying
source reader.  Papaparse with dynamicTyping produces only finite numbers
or strings in cells, so CSV cell values never carry a non-finite number;
the non-finite numbers arise only from arithmetic (e.g. division by zero
in percentage computations).
-/

namespace Izbori

/-- JavaScript number semantics: a finite rational, one of the two
infinities, or NaN.  Rationals stand in for IEEE doubles; the claims under
study only exercise values and operations where doubles are exact, plus
the division-by-zero and NaN-propagation behaviour which is modelled
explicitly. -/
inductive JSNumber where
  | fin (q : ℚ)
  | posInf
  | negInf
  | nan
deriving DecidableEq, Repr

/-- A dynamic JavaScript value as it occurs in a parsed CSV row or a
result record field: undefined (missing property), a number, or a string. -/
inductive Value where
  | undefined
  | num (x : JSNumber)
  | str (s : String)
deriving DecidableEq, Repr

namespace JSNumber

/-- JavaScript truthiness of a number: 0 and NaN are falsy. -/
def truthy : JSNumber → Bool
  | fin q => q ≠ 0
  | posInf => true
  | negInf => true
  | nan => false

/-- JavaScript addition on numbers. -/
def add : JSNumber → JSNumber → JSNumber
  | nan, _ => nan
  | _, nan => nan
  | fin a, fin b => fin (a + b)
  | posInf, negInf => nan
  | negInf, posInf => nan
  | posInf, _ => posInf
  | _, posInf => posInf
  | negInf, _ => negInf
  | _, negInf => negInf

/-- JavaScript subtraction on numbers. -/
def sub : JSNumber → JSNumber → JSNumber
  | nan, _ => nan
  | _, nan => nan
  | fin a, fin b => fin (a - b)
  | posInf, posInf => nan
  | negInf, negInf => nan
  | posInf, _ => posInf
  | _, posInf => negInf
  | negInf, _ => negInf
  | _, negInf => posInf

/-- JavaScript multiplication on numbers. -/
def mul : JSNumber → JSNumber → JSNumber
  | nan, _ => nan
  | _, nan => nan
  | fin a, fin b => fin (a * b)
  | posInf, posInf => posInf
  | posInf, negInf => negInf
  | negInf, posInf => negInf
  | negInf, negInf => posInf
  | posInf, fin b => if 0 < b then posInf else if b < 0 then negInf else nan
  | fin a, posInf => if 0 < a then posInf else if a < 0 then negInf else nan
  | negInf, fin b => if 0 < b then negInf else if b < 0 then posInf else nan
  | fin a, negInf => if 0 < a then negInf else if a < 0 then posInf else nan

/-- JavaScript division on numbers: a nonzero finite value divided by zero
gives a signed infinity and 0 / 0 gives NaN. -/
def div : JSNumber → JSNumber → JSNumber
  | nan, _ => nan
  | _, nan => nan
  | fin a, fin b =>
      if b ≠ 0 then fin (a / b)
      else if 0 < a then posInf
      else if a < 0 then negInf
      else nan
  | posInf, posInf => nan
  | posInf, negInf => nan
  | negInf, posInf => nan
  | negInf, negInf => nan
  | posInf, fin b => if 0 ≤ b then posInf else negInf
  | negInf, fin b => if 0 ≤ b then negInf else posInf
  | fin _, posInf => fin 0
  | fin _, negInf => fin 0

/-- The comparison x > 0 on a JavaScript number (NaN compares false). -/
def gtZero : JSNumber → Bool
  | fin q => 0 < q
  | posInf => true
  | negInf => false
  | nan => false

end JSNumber

/-- Decimal digit character for a value below 10. -/
def digitChar (n : ℕ) : Char := Char.ofNat (48 + n)

/-- Decimal representation of a natural number as a list of characters,
most significant digit first: the embedding of the JavaScript conversion
String(n) for a non-negative integer n. -/
def decDigits (n : ℕ) : List Char :=
  if _h : n < 10 then [digitChar n]
  else decDigits (n / 10) ++ [digitChar (n % 10)]
  termination_by n
  decreasing_by
    exact Nat.div_lt_self (by omega) (by omega)

/-- The embedding of JavaScript String.prototype.padStart with a single
pad character, over character lists. -/
def padStartL (s : List Char) (len : ℕ) (c : Char) : List Char :=
  List.replicate (len - s.length) c ++ s

/-- Read a list of decimal digit characters back as a natural number
(leading zeros allowed). -/
def parseDecimal (s : List Char) : ℕ :=
  s.foldl (fun acc c => acc * 10 + (c.toNat - 48)) 0

theorem digitChar_toNat (n : ℕ) (h : n < 10) : (digitChar n).toNat = 48 + n := by
  interval_cases n <;> decide

theorem decDigits_len_le (k : ℕ) :
    ∀ n : ℕ, n < 10 ^ (k + 1) → (decDigits n).length ≤ k + 1 := by
  induction k with
  | zero =>
      intro n hn
      rw [decDigits]
      norm_num at hn
      simp [hn]
  | succ k ih =>
      intro n hn
      rw [decDigits]
      by_cases h : n < 10
      · simp [h]
      · simp only [h, dite_false, List.length_append, List.length_cons,
          List.length_nil]
        have hdiv : n / 10 < 10 ^ (k + 1) := by
          rw [Nat.div_lt_iff_lt_mul (by omega)]
          calc n < 10 ^ (k + 1 + 1) := hn
            _ = 10 ^ (k + 1) * 10 := by ring
        have := ih (n / 10) hdiv
        omega

theorem decDigits_len_ge (k : ℕ) :
    ∀ n : ℕ, 10 ^ k ≤ n → k + 1 ≤ (decDigits n).length := by
  induction k with
  | zero =>
      intro n _
      rw [decDigits]
      split
      all_goals
        simp only [List.length_append, List.length_cons, List.length_nil]
        omega
  | succ k ih =>
      intro n hn
      have h10 : ¬ n < 10 := by
        have : 10 ≤ 10 ^ (k + 1) := by
          calc 10 = 10 ^ 1 := (pow_one 10).symm
            _ ≤ 10 ^ (k + 1) := Nat.pow_le_pow_right (by omega) (by omega)
        omega
      rw [decDigits]
      simp only [h10, dite_false, List.length_append, List.length_cons,
        List.length_nil]
      have hdiv : 10 ^ k ≤ n / 10 := by
        rw [Nat.le_div_iff_mul_le (by omega)]
        calc 10 ^ k * 10 = 10 ^ (k + 1) := by ring
          _ ≤ n := hn
      have := ih (n / 10) hdiv
      omega

theorem parseDecimal_append_digit (s : List Char) (c : Char) :
    parseDecimal (s ++ [c]) = parseDecimal s * 10 + (c.toNat - 48) := by
  simp [parseDecimal, List.foldl_append]

theorem parseDecimal_decDigits (n : ℕ) : parseDecimal (decDigits n) = n := by
  induction n using Nat.strong_induction_on with
  | _ n ih =>
      rw [decDigits]
      by_cases h : n < 10
      · simp only [h, dite_true]
        simp [parseDecimal, digitChar_toNat n h]
      · simp only [h, dite_false]
        rw [parseDecimal_append_digit,
          ih (n / 10) (Nat.div_lt_self (by omega) (by omega))]
        have hm : n % 10 < 10 := Nat.mod_lt _ (by omega)
        rw [digitChar_toNat (n % 10) hm]
        omega

theorem parseDecimal_replicate_zero_append (m : ℕ) (s : List Char) :
    parseDecimal (List.replicate m (digitChar 0) ++ s) = parseDecimal s := by
  induction m with
  | zero => simp
  | succ m ih =>
      have : List.replicate (m + 1) (digitChar 0) ++ s
          = digitChar 0 :: (List.replicate m (digitChar 0) ++ s) := by
        simp [List.replicate_succ]
      rw [this]
      have hz : (digitChar 0).toNat = 48 := by decide
      simpa [parseDecimal, hz] using ih

/-- JavaScript truthiness of a dynamic value. -/
def Value.truthy : Value → Bool
  | .undefined => false
  | .num x => x.truthy
  | .str s => s ≠ ""

/-- JavaScript logical OR: the first operand if truthy, else the second. -/
def jsOr (a b : Value) : Value := if a.truthy then a else b

/-- JavaScript String.prototype.trim over a character list: strip
leading and trailing whitespace. -/
def trimL (l : List Char) : List Char :=
  ((l.dropWhile Char.isWhitespace).reverse.dropWhile Char.isWhitespace).reverse

/-- ToNumber on a string, covering the forms the engine can meet: the
empty or all-whitespace string converts to 0, an optionally signed decimal
integer literal converts to its value, anything else to NaN (fractional
and exponent literals are never coerced by the engine, since papaparse
already typed numeric cells). -/
def strToNumber (s : String) : JSNumber :=
  let t := trimL s.data
  if t = [] then .fin 0
  else if t.all Char.isDigit then .fin (parseDecimal t)
  else
    match t with
    | '-' :: rest =>
        if rest ≠ [] ∧ rest.all Char.isDigit then .fin (-(parseDecimal rest : ℚ))
        else .nan
    | _ => .nan

/-- ToNumber on a dynamic value: undefined converts to NaN. -/
def toNumber : Value → JSNumber
  | .undefined => .nan
  | .num x => x
  | .str s => strToNumber s

/-- Is the index of the first decimal power the reduced denominator
divides, used to print a terminating decimal expansion. -/
def denPow (d : ℕ) : Option ℕ := (List.range 400).find? (fun k => 10 ^ k % d = 0)

/-- JavaScript number-to-string conversion.  Integers print as their
decimal representation; a non-integer rational with a terminating decimal
expansion prints that expansion (IEEE doubles always terminate since their
denominators are powers of two).  The engine only ever stringifies integer
identifier fields, so only the integer branch is exercised by the claims. -/
def numToString : JSNumber → String
  | .nan => "NaN"
  | .posInf => "Infinity"
  | .negInf => "-Infinity"
  | .fin q =>
      let sign := if q < 0 then "-" else ""
      let n := q.num.natAbs
      if q.den = 1 then sign ++ String.mk (decDigits n)
      else
        match denPow q.den with
        | some k =>
            let scaled := n * 10 ^ k / q.den
            sign ++ String.mk (decDigits (scaled / 10 ^ k)) ++ "." ++
              String.mk (padStartL (decDigits (scaled % 10 ^ k)) k (digitChar 0))
        | none => sign ++ String.mk (decDigits n) ++ "?" ++ String.mk (decDigits q.den)

/-- JavaScript ToString on a dynamic value (property-key coercion and the
String conversion applied to settlement identifiers). -/
def jsToString : Value → String
  | .undefined => "undefined"
  | .str s => s
  | .num x => numToString x

/-- JavaScript addition on dynamic values: string concatenation when
either operand is a string, numeric addition otherwise. -/
def jsPlus (a b : Value) : Value :=
  match a, b with
  | .str s, _ => .str (s ++ jsToString b)
  | _, .str s => .str (jsToString a ++ s)
  | _, _ => .num ((toNumber a).add (toNumber b))

/-- A parsed CSV row: an association list from column names to values, in
column order.  Papaparse header rows have unique column names, so keys are
unique. -/
abbrev Row := List (String × Value)

/-- JavaScript property read on a row object: undefined when absent. -/
def rowGet (r : Row) (k : String) : Value :=
  match r.find? (fun p => p.1 == k) with
  | some p => p.2
  | none => .undefined

/-- JavaScript property write on an object kept as an association list:
overwrite in place when the key exists, append otherwise (JavaScript
object insertion order). -/
def objSet (m : List (String × α)) (k : String) (v : α) : List (String × α) :=
  if m.any (fun p => p.1 == k) then
    m.map (fun p => if p.1 == k then (k, v) else p)
  else m ++ [(k, v)]

/-- Property lookup on an object kept as an association list. -/
def objGet (m : List (String × α)) (k : String) : Option α :=
  (m.find? (fun p => p.1 == k)).map (fun p => p.2)

/-- The outcome of an asynchronous computation once settled: a resolved
value or a rejection. -/
inductive Outcome (α : Type) where
  | ok (v : α)
  | err
deriving DecidableEq, Repr

/-- The request cache (withCache in src/src/utils/elections.ts), with the
module-level cache object made an explicit association list holding the
settled value per key.  The third argument is the outcome the underlying
fetcher produces when invoked; the returned flag reports whether the
fetcher was invoked.  On a cache hit the stored value is returned without
invoking the fetcher.  On a miss the fetcher runs: a resolved value is
stored under the key, while a rejection deletes the entry installed for
the key before the error propagates (the catch handler), leaving the
cache unchanged overall. -/
def withCache (cache : List (String × α)) (key : String) (fetched : Outcome α) :
    Outcome α × List (String × α) × Bool :=
  match objGet cache key with
  | some v => (.ok v, cache, false)
  | none =>
      match fetched with
      | .ok v => (.ok v, objSet cache key v, true)
      | .err => (.err, cache, true)

/-- clearCache: deletes every key of the cache object. -/
def clearCache (_cache : List (String × α)) : List (String × α) := []

/-- Region granularity of a data request. -/
inductive RegionType where
  | municipality
  | settlement
deriving DecidableEq, Repr

/-- The RegionDataRequest interface of elections.ts. -/
structure RegionDataRequest where
  electionId : String
  regionType : RegionType
  regionId : Option String
  parties : Option (List String)
deriving DecidableEq, Repr

/-- The regular-expression test of getElectionData: the election
identifier matches four digits, dash, two digits, dash, two digits, dash,
then the literal ns or ep. -/
def matchesIdPattern (s : String) : Bool :=
  match s.data with
  | [y1, y2, y3, y4, h1, m1, m2, h2, d1, d2, h3, t1, t2] =>
      y1.isDigit && y2.isDigit && y3.isDigit && y4.isDigit && h1 == '-' &&
      m1.isDigit && m2.isDigit && h2 == '-' && d1.isDigit && d2.isDigit &&
      h3 == '-' && ((t1 == 'n' && t2 == 's') || (t1 == 'e' && t2 == 'p'))
  | _ => false

/-- Extraction of date and type from the election identifier: on a match
the first ten characters are the date and the last two the type, otherwise
the whole identifier is the date and the type defaults to ns. -/
def parseElectionId (electionId : String) : String × String :=
  if matchesIdPattern electionId then
    (String.mk (electionId.data.take 10), String.mk (electionId.data.drop 11))
  else (electionId, "ns")

/-- The source table URL of getElectionData: date plus a suffix chosen by
region granularity. -/
def electionDataUrl (electionId : String) (regionType : RegionType) : String :=
  let p := parseElectionId electionId
  let suffix :=
    match regionType with
    | .municipality => p.2 ++ "_mun.csv"
    | .settlement => p.2 ++ ".csv"
  "/assets/data/el_data/" ++ p.1 ++ suffix

/-- The cache key of getElectionData: derived from the URL only, hence
from the election identifier and region granularity only. -/
def electionCacheKey (electionId : String) (regionType : RegionType) : String :=
  "election-data-" ++ electionDataUrl electionId regionType

/-- The fixed metadata column set excluded from party extraction. -/
def metaKeys : List String :=
  ["municipality_name", "region", "region_name", "n_stations", "total",
   "activity", "nuts4", "eligible_voters", "total_valid", "id", "невалидни"]

/-- JavaScript parseInt with radix 10: skip surrounding whitespace, accept
an optional sign, then the longest prefix of decimal digits; none stands
for NaN. -/
def parseIntJS (s : String) : Option ℤ :=
  let t := trimL s.data
  match t with
  | '-' :: rest =>
      let ds := rest.takeWhile Char.isDigit
      if ds = [] then none else some (-(parseDecimal ds : ℤ))
  | '+' :: rest =>
      let ds := rest.takeWhile Char.isDigit
      if ds = [] then none else some ((parseDecimal ds : ℤ))
  | _ =>
      let ds := t.takeWhile Char.isDigit
      if ds = [] then none else some ((parseDecimal ds : ℤ))

/-- JavaScript loose equality between a row value and a finite integer
(the parseInt result): undefined compares false against a number, a
number compares numerically, a string is coerced with ToNumber. -/
def looseEqNum (v : Value) (n : ℤ) : Bool :=
  match v with
  | .undefined => false
  | .num x => x == .fin (n : ℚ)
  | .str s => strToNumber s == .fin (n : ℚ)

/-- JavaScript strict equality between a row value and a string. -/
def strictEqStr (v : Value) (s : String) : Bool :=
  match v with
  | .str t => t == s
  | _ => false

/-- The regionId filter stage of getElectionData.  An absent regionId (and
the falsy empty string) leaves the rows unfiltered; municipality filtering
compares nuts4 or municipality_name strictly, settlement filtering
compares the integer id loosely against parseInt of the regionId (a NaN
parse matches nothing). -/
def filterByRegion (regionType : RegionType) (regionId : Option String)
    (rows : List Row) : List Row :=
  match regionId with
  | none => rows
  | some rid =>
      if rid = "" then rows
      else
        match regionType with
        | .municipality =>
            rows.filter (fun r =>
              strictEqStr (rowGet r "nuts4") rid ||
              strictEqStr (rowGet r "municipality_name") rid)
        | .settlement =>
            match parseIntJS rid with
            | none => rows.filter (fun _ => false)
            | some n => rows.filter (fun r => looseEqNum (rowGet r "id") n)

/-- The identifier key of a row before the falsiness check: for
municipalities the value municipality_name or nuts4, for settlements the
String conversion of the id field left-padded with zeros to five
characters. -/
def rawKey (regionType : RegionType) (r : Row) : Value :=
  match regionType with
  | .municipality => jsOr (rowGet r "municipality_name") (rowGet r "nuts4")
  | .settlement =>
      .str (String.mk (padStartL (jsToString (rowGet r "id")).data 5 (digitChar 0)))

/-- The party filter predicate: with no filter or an empty filter list
every column passes, otherwise only listed columns pass. -/
def partyFilterPass (parties : Option (List String)) (col : String) : Bool :=
  match parties with
  | none => true
  | some l => l.isEmpty || l.contains col

/-- Party extraction of getElectionData: every column outside the fixed
metadata set whose value is a number and which passes the party filter
becomes an entry of the results mapping, in column order. -/
def extractParties (parties : Option (List String)) (r : Row) :
    List (String × JSNumber) :=
  r.foldl (fun acc p =>
    match p.2 with
    | .num x =>
        if metaKeys.contains p.1 = false && partyFilterPass parties p.1 then
          objSet acc p.1 x
        else acc
    | _ => acc) []

/-- Per-region metadata of a processed record. -/
structure RegionMeta where
  activity : Value
  eligible : Value
deriving DecidableEq, Repr

/-- A processed per-region record as built by getElectionData. -/
structure ElectionEntry where
  id : String
  total : Value
  results : List (String × JSNumber)
  meta : RegionMeta
deriving DecidableEq, Repr

/-- The record builder of getElectionData for one row: totalVotes is
total, falling back to total_valid, falling back to 0, under JavaScript
truthiness; eligibleVoters falls back to 0; activity is the activity cell
when present, else totalVotes over eligibleVoters when the latter is
positive, else 0. -/
def buildEntry (parties : Option (List String)) (r : Row) (key : String) :
    ElectionEntry :=
  let totalVotes := jsOr (rowGet r "total") (jsOr (rowGet r "total_valid") (.num (.fin 0)))
  let eligibleVoters := jsOr (rowGet r "eligible_voters") (.num (.fin 0))
  let activity : Value :=
    if rowGet r "activity" ≠ .undefined then rowGet r "activity"
    else if (toNumber eligibleVoters).gtZero then
      .num ((toNumber totalVotes).div (toNumber eligibleVoters))
    else .num (.fin 0)
  { id := key
    total := totalVotes
    results := extractParties parties r
    meta := { activity := activity, eligible := eligibleVoters } }

/-- The in-memory filter-and-process stage of getElectionData: filter by
region, then build the keyed record object row by row, skipping rows with
a falsy key. -/
def processRows (regionType : RegionType) (regionId : Option String)
    (parties : Option (List String)) (rows : List Row) :
    List (String × ElectionEntry) :=
  (filterByRegion regionType regionId rows).foldl (fun acc r =>
    let key := rawKey regionType r
    if key.truthy then
      objSet acc (jsToString key) (buildEntry parties r (jsToString key))
    else acc) []

/-- The election-data cache slice: parsed full tables per cache key. -/
abbrev ElectionCache := List (String × List Row)

/-- getElectionData: derive the URL and cache key from the election
identifier and region granularity, fetch-and-parse through the cache
(source gives the outcome the parser produces for a URL when invoked),
then filter and process the full parsed table in memory per request. -/
def getElectionData (source : String → Outcome (List Row))
    (cache : ElectionCache) (req : RegionDataRequest) :
    Outcome (List (String × ElectionEntry)) × ElectionCache × Bool :=
  let url := electionDataUrl req.electionId req.regionType
  match withCache cache (electionCacheKey req.electionId req.regionType) (source url) with
  | (.ok rows, c2, invoked) =>
      (.ok (processRows req.regionType req.regionId req.parties rows), c2, invoked)
  | (.err, c2, invoked) => (.err, c2, invoked)

/-- A ranked party entry of a derived election summary. -/
structure TopParty where
  party : String
  votes : JSNumber
  percentage : JSNumber
deriving DecidableEq, Repr

/-- The derived election summary attached to a matched feature. -/
structure ElectionSummary where
  totalVotes : Value
  activity : JSNumber
  topParties : List TopParty
deriving DecidableEq, Repr

/-- A geographic feature, reduced to the two property fields the merge
layer reads: the display name (municipality key) and the EKATTE code
(settlement key). -/
structure Feature where
  name : String
  ekatte : String
deriving DecidableEq, Repr

/-- A feature after the merge: the input feature together with an
optional election summary. -/
structure MergedFeature where
  feature : Feature
  electionData : Option ElectionSummary
deriving DecidableEq, Repr

/-- Does the already placed element y stay before the incoming element x
under the sort comparator of the source, which maps a pair (a, b) to
b.votes - a.votes: it does when the comparator value is nonpositive, and
a NaN comparator value counts as zero per the ECMAScript SortCompare
specification. -/
def keepBefore (y x : TopParty) : Bool :=
  match JSNumber.sub x.votes y.votes with
  | .fin d => d ≤ 0
  | .negInf => true
  | .posInf => false
  | .nan => true

/-- Stable insertion of one element after every already placed element it
stays behind, realizing a stable Array.prototype.sort. -/
def insertStable (keep : α → α → Bool) : List α → α → List α
  | [], x => [x]
  | y :: ys, x => if keep y x then y :: insertStable keep ys x else x :: y :: ys

/-- Stable sort by repeated stable insertion, processing in input order. -/
def sortStable (keep : α → α → Bool) (l : List α) : List α :=
  l.foldl (insertStable keep) []

/-- The stable descending-by-votes sort applied to ranked party lists. -/
def sortByVotes (l : List TopParty) : List TopParty := sortStable keepBefore l

/-- JavaScript parseFloat restricted to optionally signed decimal
literals with an optional fraction part (no valid numeric prefix gives
NaN); the merge layer only reaches this on string-typed activity cells. -/
def parseFloatJS (s : String) : JSNumber :=
  let core := fun (l : List Char) (sign : ℚ) =>
    let ip := l.takeWhile Char.isDigit
    let rest := l.drop ip.length
    match rest with
    | '.' :: fr =>
        let fp := fr.takeWhile Char.isDigit
        if ip = [] ∧ fp = [] then JSNumber.nan
        else .fin (sign * ((parseDecimal ip : ℚ) + (parseDecimal fp : ℚ) / 10 ^ fp.length))
    | _ => if ip = [] then JSNumber.nan else .fin (sign * (parseDecimal ip : ℚ))
  match trimL s.data with
  | '-' :: rest => core rest (-1)
  | '+' :: rest => core rest 1
  | t => core t 1

/-- The summary derivation shared verbatim by mergeData and
mergePlacesData: rank the party mapping with percentage votes over total
times 100, sort descending by votes, and coerce the activity metadata
(parseFloat on strings, logical-or-zero otherwise). -/
def summaryOf (data : ElectionEntry) : ElectionSummary :=
  let topParties := sortByVotes (data.results.map (fun p =>
    { party := p.1
      votes := p.2
      percentage := (p.2.div (toNumber data.total)).mul (.fin 100) }))
  let activityVal := data.meta.activity
  let activity : JSNumber :=
    match activityVal with
    | .str s => parseFloatJS s
    | v => if v.truthy then toNumber v else .fin 0
  { totalVotes := data.total, activity := activity, topParties := topParties }

/-- mergeData: join municipality features with result records by display
name, attaching a derived summary on a match and nothing otherwise. -/
def mergeData (geo : List Feature)
    (electionResults : List (String × ElectionEntry)) : List MergedFeature :=
  geo.map (fun feature =>
    match objGet electionResults feature.name with
    | some data => { feature := feature, electionData := some (summaryOf data) }
    | none => { feature := feature, electionData := none })

/-- mergePlacesData: join settlement features with result records by
EKATTE code, attaching a derived summary on a match and nothing
otherwise. -/
def mergePlacesData (features : List Feature)
    (electionResults : List (String × ElectionEntry)) : List MergedFeature :=
  features.map (fun feature =>
    match objGet electionResults feature.ekatte with
    | some data => { feature := feature, electionData := some (summaryOf data) }
    | none => { feature := feature, electionData := none })

/-- A place record from places.json, reduced to the fields the
aggregation reads: the EKATTE code and the parent municipality name. -/
structure PlaceRef where
  ekatte : String
  obshtina : String
deriving DecidableEq, Repr

/-- The running totals of the aggregation loop over one municipality. -/
structure AggState where
  parties : List (String × JSNumber)
  totalVotes : Value
  totalEligible : Value
  totalValid : Value
deriving DecidableEq, Repr

/-- The starting totals of the aggregation loop. -/
def aggInit : AggState :=
  { parties := [], totalVotes := .num (.fin 0), totalEligible := .num (.fin 0),
    totalValid := .num (.fin 0) }

/-- One party-votes assignment of the aggregation loop: the accumulator
entry, or-zero when absent or falsy, plus the incoming votes. -/
def orZeroNum (o : Option JSNumber) : JSNumber :=
  match o with
  | some x => if x.truthy then x else .fin 0
  | none => .fin 0

/-- Summing one settlement record's party mapping into the accumulator. -/
def aggParties (acc : List (String × JSNumber)) (results : List (String × JSNumber)) :
    List (String × JSNumber) :=
  results.foldl (fun a p => objSet a p.1 ((orZeroNum (objGet a p.1)).add p.2)) acc

/-- One iteration of the aggregation loop for a settlement that has a
result record: add total (or 0) to totalVotes and totalValid, eligible
(or 0) to totalEligible, and fold the party mapping in. -/
def aggPlace (st : AggState) (entry : ElectionEntry) : AggState :=
  { parties := aggParties st.parties entry.results
    totalVotes := jsPlus st.totalVotes (jsOr entry.total (.num (.fin 0)))
    totalEligible := jsPlus st.totalEligible (jsOr entry.meta.eligible (.num (.fin 0)))
    totalValid := jsPlus st.totalValid (jsOr entry.total (.num (.fin 0))) }

/-- The aggregation loop over the settlements of one municipality,
skipping settlements without a result record. -/
def aggRun (settlementResults : List (String × ElectionEntry))
    (placesInMun : List PlaceRef) : AggState :=
  placesInMun.foldl (fun st p =>
    match objGet settlementResults p.ekatte with
    | some e => aggPlace st e
    | none => st) aggInit

/-- aggregateSettlementsToMunicipalities: for each municipality feature,
take the places whose obshtina equals the feature name (the source groups
placesData into a Map by obshtina up front; per municipality that yields
exactly the places with that obshtina in input order), run the
aggregation loop over their result records, and attach a summary if and
only if the aggregated totalVotes is positive, with turnout totalVotes
over totalEligible when the latter is positive and 0 otherwise. -/
def aggregateSettlementsToMunicipalities (placesData : List PlaceRef)
    (settlementResults : List (String × ElectionEntry))
    (municipalityGeo : List Feature) : List MergedFeature :=
  municipalityGeo.map (fun feature =>
    let placesInMun := placesData.filter (fun p => p.obshtina == feature.name)
    let st := aggRun settlementResults placesInMun
    if (toNumber st.totalVotes).gtZero then
      let topParties := sortByVotes (st.parties.map (fun p =>
        { party := p.1
          votes := p.2
          percentage := (p.2.div (toNumber st.totalVotes)).mul (.fin 100) }))
      let activity : JSNumber :=
        if (toNumber st.totalEligible).gtZero then
          (toNumber st.totalVotes).div (toNumber st.totalEligible)
        else .fin 0
      { feature := feature
        electionData := some
          { totalVotes := st.totalVotes, activity := activity,
            topParties := topParties } }
    else { feature := feature, electionData := none })

/-- Does the first character list start with the second. -/
def startsWithL : List Char → List Char → Bool
  | _, [] => true
  | [], _ :: _ => false
  | a :: s, b :: t => a == b && startsWithL s t

/-- Substring containment on character lists, the embedding of
String.prototype.includes. -/
def containsSub : List Char → List Char → Bool
  | [], needle => startsWithL [] needle
  | a :: t, needle => startsWithL (a :: t) needle || containsSub t needle

/-- Character-wise lower casing; JavaScript toLowerCase agrees with this
on the ASCII names exercised here (full Unicode folding is not
modelled). -/
def lowerL (l : List Char) : List Char := l.map Char.toLower

/-- Does the query occur in the lower-cased display name of a feature. -/
def nameMatches (q : List Char) (f : Feature) : Bool :=
  containsSub (lowerL f.name.data) q

/-- The synchronous searchRegions of elections.ts: an empty or
single-character query returns nothing (the raw query, as written in the
source: no trimming happens before the length check); otherwise
case-insensitive substring matches over municipalities then places,
truncated to ten results. -/
def searchRegions (query : String) (municipalities places : List Feature) :
    List Feature :=
  if query = "" ∨ query.data.length < 2 then []
  else
    let lowerQuery := lowerL query.data
    ((municipalities.filter (nameMatches lowerQuery)) ++
      (places.filter (nameMatches lowerQuery))).take 10

/-- Stable descending sort by summed votes, ties kept in first-seen
order. -/
def rankDesc (l : List (String × ℕ)) : List (String × ℕ) :=
  sortStable (fun y x => decide (x.2 ≤ y.2)) l

/-- Folding one election's national party mapping into the running party
sums: each party's votes are added to its entry, absent treated as 0. -/
def addElection (acc : List (String × ℕ)) (e : List (String × ℕ)) :
    List (String × ℕ) :=
  e.foldl (fun a p => objSet a p.1 (((objGet a p.1).getD 0) + p.2)) acc

/-- The party-sum accumulation across elections: each election's national
party mapping is folded in, adding each party's votes to its running sum
(first-seen insertion order). -/
def sumAcrossElections (perElection : List (List (String × ℕ))) :
    List (String × ℕ) :=
  perElection.foldl addElection []

/-- Modelled from the spec: the local cross-election rollup behind
getTopPartiesFromLastNElections is not under src (the shipped frontend
function delegates to an external API server whose code is absent from
the repository; only the vitest suite for the older local implementation
remains).  Per the spec it receives, for each of the N most recent
elections, that election's national party-to-votes mapping, sums votes
per party name across all N elections — parties present in only some
elections keep their partial sum — and returns the parties ranked by
summed votes descending, ties kept in first-seen order. -/
def rollupAcrossElections (perElection : List (List (String × ℕ))) :
    List (String × ℕ) :=
  rankDesc (sumAcrossElections perElection)

/-! Helper lemmas about association-list objects. -/

theorem objGet_map_set_self (m : List (String × α)) (k : String) (v : α)
    (h : m.any (fun q => q.1 == k) = true) :
    objGet (m.map (fun q => if q.1 == k then (k, v) else q)) k = some v := by
  induction m with
  | nil => simp at h
  | cons q t ih =>
      by_cases hq : q.1 == k
      · simp [objGet, List.find?, hq]
      · have ht : t.any (fun q => q.1 == k) = true := by
          simpa [List.any_cons, hq] using h
        simpa [objGet, List.find?, hq] using ih ht

theorem objGet_append_set_self (m : List (String × α)) (k : String) (v : α)
    (h : m.any (fun q => q.1 == k) = false) :
    objGet (m ++ [(k, v)]) k = some v := by
  induction m with
  | nil => simp [objGet, List.find?]
  | cons q t ih =>
      have hq : (q.1 == k) = false := by
        by_contra hc
        simp only [Bool.not_eq_false] at hc
        simp [List.any_cons, hc] at h
      have ht : t.any (fun q => q.1 == k) = false := by
        simpa [List.any_cons, hq] using h
      simpa [objGet, List.find?, hq] using ih ht

theorem objGet_objSet_self (m : List (String × α)) (k : String) (v : α) :
    objGet (objSet m k v) k = some v := by
  by_cases ha : m.any (fun q => q.1 == k)
  · simpa [objSet, ha] using objGet_map_set_self m k v ha
  · simp only [Bool.not_eq_true] at ha
    simpa [objSet, ha] using objGet_append_set_self m k v ha

theorem objGet_map_set_ne (m : List (String × α)) (k k2 : String) (v : α)
    (h : ¬ k2 = k) :
    objGet (m.map (fun q => if q.1 == k then (k, v) else q)) k2 = objGet m k2 := by
  have hkk : (k == k2) = false := by
    simp only [beq_eq_false_iff_ne, ne_eq]
    exact fun hc => h hc.symm
  induction m with
  | nil => simp
  | cons q t ih =>
      by_cases hq : q.1 == k
      · have hq2 : (q.1 == k2) = false := by
          have : q.1 = k := by simpa [beq_iff_eq] using hq
          simpa [this] using hkk
        simpa [objGet, List.find?, hq, hq2, hkk] using ih
      · by_cases hq2 : q.1 == k2
        · simp [objGet, List.find?, hq, hq2]
        · simpa [objGet, List.find?, hq, hq2] using ih

theorem objGet_append_set_ne (m : List (String × α)) (k k2 : String) (v : α)
    (h : ¬ k2 = k) :
    objGet (m ++ [(k, v)]) k2 = objGet m k2 := by
  have hkk : (k == k2) = false := by
    simp only [beq_eq_false_iff_ne, ne_eq]
    exact fun hc => h hc.symm
  induction m with
  | nil => simp [objGet, List.find?, hkk]
  | cons q t ih =>
      by_cases hq2 : q.1 == k2
      · simp [objGet, List.find?, hq2]
      · simpa [objGet, List.find?, hq2] using ih

theorem objGet_objSet_ne (m : List (String × α)) (k k2 : String) (v : α)
    (h : ¬ k2 = k) : objGet (objSet m k v) k2 = objGet m k2 := by
  by_cases ha : m.any (fun q => q.1 == k)
  · simpa [objSet, ha] using objGet_map_set_ne m k k2 v h
  · simp only [Bool.not_eq_true] at ha
    simpa [objSet, ha] using objGet_append_set_ne m k k2 v h

/-! Helper lemmas about the stable sort. -/

theorem insertStable_perm (keep : α → α → Bool) (l : List α) (x : α) :
    (insertStable keep l x).Perm (x :: l) := by
  induction l with
  | nil => rfl
  | cons y ys ih =>
      by_cases h : keep y x
      · have hstep : insertStable keep (y :: ys) x = y :: insertStable keep ys x := by
          simp [insertStable, h]
        rw [hstep]
        exact (ih.cons y).trans (List.Perm.swap x y ys)
      · have hstep : insertStable keep (y :: ys) x = x :: y :: ys := by
          simp [insertStable, h]
        rw [hstep]

theorem foldl_insertStable_perm (keep : α → α → Bool) (l : List α) :
    ∀ acc : List α, (l.foldl (insertStable keep) acc).Perm (acc ++ l) := by
  induction l with
  | nil => intro acc; simp
  | cons x t ih =>
      intro acc
      have h1 : (x :: t).foldl (insertStable keep) acc
          = t.foldl (insertStable keep) (insertStable keep acc x) := rfl
      rw [h1]
      have h2 := ih (insertStable keep acc x)
      have h3 : (insertStable keep acc x ++ t).Perm ((x :: acc) ++ t) :=
        (insertStable_perm keep acc x).append_right t
      have h4 : ((x :: acc) ++ t).Perm (acc ++ x :: t) := List.perm_middle.symm
      exact (h2.trans h3).trans h4

theorem sortStable_perm (keep : α → α → Bool) (l : List α) :
    (sortStable keep l).Perm l := by
  simpa [sortStable] using foldl_insertStable_perm keep l []

theorem insertStable_pairwise_natDesc (l : List (String × ℕ)) (x : String × ℕ)
    (hl : l.Pairwise (fun a b => b.2 ≤ a.2)) :
    (insertStable (fun y x => decide (x.2 ≤ y.2)) l x).Pairwise
      (fun a b => b.2 ≤ a.2) := by
  induction l with
  | nil => simp [insertStable]
  | cons y ys ih =>
      rcases List.pairwise_cons.mp hl with ⟨hy, hys⟩
      by_cases h : x.2 ≤ y.2
      · have hstep : insertStable (fun y x => decide (x.2 ≤ y.2)) (y :: ys) x
            = y :: insertStable (fun y x => decide (x.2 ≤ y.2)) ys x := by
          simp [insertStable, h]
        rw [hstep]
        refine List.pairwise_cons.mpr ⟨?_, ih hys⟩
        intro b hb
        have hb2 : b ∈ x :: ys := (insertStable_perm _ ys x).mem_iff.mp hb
        rcases List.mem_cons.mp hb2 with hbx | hbys
        · exact hbx ▸ h
        · exact hy b hbys
      · have hstep : insertStable (fun y x => decide (x.2 ≤ y.2)) (y :: ys) x
            = x :: y :: ys := by
          simp [insertStable, h]
        rw [hstep]
        refine List.pairwise_cons.mpr ⟨?_, hl⟩
        intro b hb
        rcases List.mem_cons.mp hb with hby | hbys
        · exact hby ▸ Nat.le_of_lt (Nat.lt_of_not_le h)
        · exact Nat.le_trans (hy b hbys) (Nat.le_of_lt (Nat.lt_of_not_le h))

theorem rankDesc_sorted (l : List (String × ℕ)) :
    (rankDesc l).Pairwise (fun a b => b.2 ≤ a.2) := by
  have main : ∀ (l acc : List (String × ℕ)),
      acc.Pairwise (fun a b => b.2 ≤ a.2) →
      (l.foldl (insertStable (fun y x => decide (x.2 ≤ y.2))) acc).Pairwise
        (fun a b => b.2 ≤ a.2) := by
    intro l
    induction l with
    | nil => intro acc hacc; simpa using hacc
    | cons x t ih =>
        intro acc hacc
        exact ih _ (insertStable_pairwise_natDesc acc x hacc)
  simpa [rankDesc, sortStable] using main l [] (by simp)

/-! Claim C2: no negative caching in withCache. -/

/-- C2: for every cache key not yet cached, a failing computation leaves
no cache entry behind (the entry is deleted before the error propagates),
so a subsequent succeeding call re-invokes the underlying computation:
the two calls invoke the underlying reader exactly twice, the first call
rejects, the second resolves, and the second result is what remains
cached under the key. -/
theorem withCache_failure_then_retry {α : Type} (cache : List (String × α))
    (key : String) (v : α) (hfresh : objGet cache key = none) :
    (withCache cache key (.err : Outcome α)).1 = .err ∧
    (withCache cache key (.err : Outcome α)).2.2 = true ∧
    objGet (withCache cache key (.err : Outcome α)).2.1 key = none ∧
    (withCache (withCache cache key (.err : Outcome α)).2.1 key (.ok v)).1 = .ok v ∧
    (withCache (withCache cache key (.err : Outcome α)).2.1 key (.ok v)).2.2 = true ∧
    objGet (withCache (withCache cache key (.err : Outcome α)).2.1 key (.ok v)).2.1 key
      = some v := by
  have h1 : withCache cache key (.err : Outcome α) = (.err, cache, true) := by
    simp [withCache, hfresh]
  rw [h1]
  have h2 : withCache cache key (.ok v) = (.ok v, objSet cache key v, true) := by
    simp [withCache, hfresh]
  rw [h2]
  exact ⟨rfl, rfl, hfresh, rfl, rfl, objGet_objSet_self cache key v⟩

/-- Witness for C2 at a concrete cache, key and value. -/
theorem withCache_failure_then_retry_witness :
    (withCache ([] : List (String × ℕ)) "parties" (.err : Outcome ℕ)).1 = .err ∧
    (withCache ([] : List (String × ℕ)) "parties" (.err : Outcome ℕ)).2.2 = true ∧
    objGet (withCache ([] : List (String × ℕ)) "parties" (.err : Outcome ℕ)).2.1 "parties"
      = none ∧
    (withCache (withCache ([] : List (String × ℕ)) "parties" (.err : Outcome ℕ)).2.1
      "parties" (.ok 7)).1 = .ok 7 ∧
    (withCache (withCache ([] : List (String × ℕ)) "parties" (.err : Outcome ℕ)).2.1
      "parties" (.ok 7)).2.2 = true ∧
    objGet (withCache (withCache ([] : List (String × ℕ)) "parties" (.err : Outcome ℕ)).2.1
      "parties" (.ok 7)).2.1 "parties" = some 7 :=
  withCache_failure_then_retry [] "parties" 7 rfl

/-! Claim C1: one parse per election identifier and region granularity. -/

/-- C1: two getElectionData calls with the same election identifier and
region granularity, with any region or party filters and no clearCache in
between, invoke the underlying source parse exactly once: the cache key
depends only on the election identifier and the region granularity, the
first call invokes the parser, the second is served from the cache, and
both results are the in-memory filter-and-process stage applied to the
single unfiltered parse result. -/
theorem getElectionData_single_parse (source : String → Outcome (List Row))
    (cache : ElectionCache) (req1 req2 : RegionDataRequest) (rows : List Row)
    (hid : req2.electionId = req1.electionId)
    (hty : req2.regionType = req1.regionType)
    (hfresh : objGet cache (electionCacheKey req1.electionId req1.regionType) = none)
    (hsrc : source (electionDataUrl req1.electionId req1.regionType) = .ok rows) :
    electionCacheKey req2.electionId req2.regionType
      = electionCacheKey req1.electionId req1.regionType ∧
    (getElectionData source cache req1).2.2 = true ∧
    (getElectionData source (getElectionData source cache req1).2.1 req2).2.2 = false ∧
    (getElectionData source cache req1).1
      = .ok (processRows req1.regionType req1.regionId req1.parties rows) ∧
    (getElectionData source (getElectionData source cache req1).2.1 req2).1
      = .ok (processRows req2.regionType req2.regionId req2.parties rows) := by
  have hkey : electionCacheKey req2.electionId req2.regionType
      = electionCacheKey req1.electionId req1.regionType := by rw [hid, hty]
  have hwc1 : withCache cache (electionCacheKey req1.electionId req1.regionType)
      (source (electionDataUrl req1.electionId req1.regionType))
      = (.ok rows, objSet cache (electionCacheKey req1.electionId req1.regionType) rows,
         true) := by
    simp [withCache, hfresh, hsrc]
  have h1 : getElectionData source cache req1
      = (.ok (processRows req1.regionType req1.regionId req1.parties rows),
         objSet cache (electionCacheKey req1.electionId req1.regionType) rows, true) := by
    simp [getElectionData, hwc1]
  have hwc2 : withCache
      (objSet cache (electionCacheKey req1.electionId req1.regionType) rows)
      (electionCacheKey req2.electionId req2.regionType)
      (source (electionDataUrl req2.electionId req2.regionType))
      = (.ok rows,
         objSet cache (electionCacheKey req1.electionId req1.regionType) rows, false) := by
    rw [hkey]
    simp [withCache, objGet_objSet_self]
  have h2 : getElectionData source
      (objSet cache (electionCacheKey req1.electionId req1.regionType) rows) req2
      = (.ok (processRows req2.regionType req2.regionId req2.parties rows),
         objSet cache (electionCacheKey req1.electionId req1.regionType) rows, false) := by
    simp [getElectionData, hwc2]
  rw [h1]
  exact ⟨hkey, rfl, by rw [h2], rfl, by rw [h2]⟩

/-- Witness for C1: the same election and granularity requested twice
with different region and party filters, over a one-row municipality
table. -/
theorem getElectionData_single_parse_witness :
    (electionCacheKey "2021-04-04" RegionType.municipality
      = electionCacheKey "2021-04-04" RegionType.municipality ∧
    (getElectionData
      (fun _ => .ok [[("municipality_name", Value.str "TestMun"),
        ("total", Value.num (.fin 100)), ("Party A", Value.num (.fin 60))]])
      [] ⟨"2021-04-04", .municipality, none, none⟩).2.2 = true ∧
    (getElectionData
      (fun _ => .ok [[("municipality_name", Value.str "TestMun"),
        ("total", Value.num (.fin 100)), ("Party A", Value.num (.fin 60))]])
      (getElectionData
        (fun _ => .ok [[("municipality_name", Value.str "TestMun"),
          ("total", Value.num (.fin 100)), ("Party A", Value.num (.fin 60))]])
        [] ⟨"2021-04-04", .municipality, none, none⟩).2.1
      ⟨"2021-04-04", .municipality, some "TestMun", some ["Party A"]⟩).2.2 = false ∧
    (getElectionData
      (fun _ => .ok [[("municipality_name", Value.str "TestMun"),
        ("total", Value.num (.fin 100)), ("Party A", Value.num (.fin 60))]])
      [] ⟨"2021-04-04", .municipality, none, none⟩).1
      = .ok (processRows .municipality none none
          [[("municipality_name", Value.str "TestMun"),
            ("total", Value.num (.fin 100)), ("Party A", Value.num (.fin 60))]]) ∧
    (getElectionData
      (fun _ => .ok [[("municipality_name", Value.str "TestMun"),
        ("total", Value.num (.fin 100)), ("Party A", Value.num (.fin 60))]])
      (getElectionData
        (fun _ => .ok [[("municipality_name", Value.str "TestMun"),
          ("total", Value.num (.fin 100)), ("Party A", Value.num (.fin 60))]])
        [] ⟨"2021-04-04", .municipality, none, none⟩).2.1
      ⟨"2021-04-04", .municipality, some "TestMun", some ["Party A"]⟩).1
      = .ok (processRows .municipality (some "TestMun") (some ["Party A"])
          [[("municipality_name", Value.str "TestMun"),
            ("total", Value.num (.fin 100)), ("Party A", Value.num (.fin 60))]])) :=
  getElectionData_single_parse _ [] ⟨"2021-04-04", .municipality, none, none⟩
    ⟨"2021-04-04", .municipality, some "TestMun", some ["Party A"]⟩ _ rfl rfl rfl rfl

/-! Claim C7: settlement key normalization. -/

theorem string_empty_append (s : String) : "" ++ s = s := by
  cases s
  rfl

theorem jsToString_natFin (k : ℕ) :
    jsToString (.num (.fin (k : ℚ))) = String.mk (decDigits k) := by
  have hneg : ¬ ((k : ℚ) < 0) := not_lt.mpr (Nat.cast_nonneg k)
  simp [jsToString, numToString, Rat.den_natCast, Rat.num_natCast, hneg,
    string_empty_append]

/-- C7: for a settlement row whose integer identifier is k, the
normalized key is the String conversion of k left-padded with zeros to
five characters; for 0 &le; k &le; 99999 that string has exactly five
characters and reads back as k in decimal, and an identifier whose
decimal representation already has five or more digits passes through
unpadded and untruncated. -/
theorem settlement_key_zero_padded (k : ℕ) (r : Row)
    (hid : rowGet r "id" = .num (.fin (k : ℚ))) :
    rawKey .settlement r
      = .str (String.mk (padStartL (decDigits k) 5 (digitChar 0))) ∧
    (k ≤ 99999 →
      (padStartL (decDigits k) 5 (digitChar 0)).length = 5 ∧
      parseDecimal (padStartL (decDigits k) 5 (digitChar 0)) = k) ∧
    (10000 ≤ k → padStartL (decDigits k) 5 (digitChar 0) = decDigits k) := by
  refine ⟨?_, ?_, ?_⟩
  · simp [rawKey, hid, jsToString_natFin]
  · intro hk
    have hpow : (10 : ℕ) ^ 5 = 100000 := by norm_num
    have hlt : k < 10 ^ (4 + 1) := by rw [hpow]; omega
    have hlen : (decDigits k).length ≤ 5 := decDigits_len_le 4 k hlt
    constructor
    · simp only [padStartL, List.length_append, List.length_replicate]
      omega
    · rw [padStartL, parseDecimal_replicate_zero_append, parseDecimal_decDigits]
  · intro hk
    have hpow : (10 : ℕ) ^ 4 = 10000 := by norm_num
    have hge : 10 ^ 4 ≤ k := by rw [hpow]; omega
    have hlen : 5 ≤ (decDigits k).length := decDigits_len_ge 4 k hge
    simp [padStartL, Nat.sub_eq_zero_of_le hlen]

/-- Witness for C7 at identifiers 14 and 69016: the normalized keys are
the five-character strings 00014 and 69016. -/
theorem settlement_key_zero_padded_witness :
    ((rawKey .settlement [("id", Value.num (.fin ((14 : ℕ) : ℚ)))]
      = .str (String.mk (padStartL (decDigits 14) 5 (digitChar 0))) ∧
    (14 ≤ 99999 →
      (padStartL (decDigits 14) 5 (digitChar 0)).length = 5 ∧
      parseDecimal (padStartL (decDigits 14) 5 (digitChar 0)) = 14) ∧
    (10000 ≤ 14 → padStartL (decDigits 14) 5 (digitChar 0) = decDigits 14)) ∧
    String.mk (padStartL (decDigits 14) 5 (digitChar 0)) = "00014") ∧
    String.mk (padStartL (decDigits 69016) 5 (digitChar 0)) = "69016" := by
  have h14 : decDigits 14 = ['1', '4'] := by
    simp [decDigits, digitChar]
  have h69016 : decDigits 69016 = ['6', '9', '0', '1', '6'] := by
    simp [decDigits, digitChar]
  refine ⟨⟨settlement_key_zero_padded 14 [("id", Value.num (.fin ((14 : ℕ) : ℚ)))] rfl,
    ?_⟩, ?_⟩
  · rw [h14]; decide
  · rw [h69016]; decide

/-! Claim C9: the totalVotes fallback chain. -/

/-- A row whose total column is present with value 0 while total_valid
is 5. -/
def zeroTotalRow : Row :=
  [("id", Value.num (.fin 1)), ("total", Value.num (.fin 0)),
   ("total_valid", Value.num (.fin 5))]

/-- C9 counterexample: the claim says a present total of 0 gives
totalVotes 0, but the source computes total OR total_valid OR 0 under
JavaScript truthiness, so the record built from zeroTotalRow carries
totalVotes 5. -/
theorem buildEntry_total_zero_counterexample :
    rowGet zeroTotalRow "total" = .num (.fin 0) ∧
    (buildEntry none zeroTotalRow "00001").total = .num (.fin 5) := by
  exact ⟨rfl, by decide⟩

/-- A municipality-style row as in the repository's own mock tables:
the total column is present, the total_valid column is absent. -/
def munTotalRow : Row :=
  [("municipality_name", Value.str "TestMun"), ("total", Value.num (.fin 100)),
   ("Party A", Value.num (.fin 60))]

/-- C9 amended: with each of the total and total_valid fields
independently either present with a finite numeric value or absent
(absent stands for the column missing from the row), totalVotes is the
total field when present with a truthy (nonzero) value, else the
total_valid field when present with a truthy value, else 0; in
particular a present total of value 0 falls through to total_valid, an
absent field behaves like a falsy one, and two absent or zero fields
give 0. -/
theorem buildEntry_total_fallback (parties : Option (List String)) (r : Row)
    (key : String) (t tv : Option ℚ)
    (h1 : rowGet r "total"
      = match t with
        | some q => Value.num (.fin q)
        | none => Value.undefined)
    (h2 : rowGet r "total_valid"
      = match tv with
        | some q => Value.num (.fin q)
        | none => Value.undefined) :
    (buildEntry parties r key).total
      = .num (.fin (if t.getD 0 ≠ 0 then t.getD 0
          else if tv.getD 0 ≠ 0 then tv.getD 0 else 0)) := by
  rcases t with _ | q
  · rcases tv with _ | qv
    · simp [buildEntry, h1, h2, jsOr, Value.truthy]
    · simp only [buildEntry, h1, h2, jsOr, Value.truthy, JSNumber.truthy,
        Option.getD_none, Option.getD_some]
      by_cases hqv : qv = 0 <;> simp [hqv]
  · rcases tv with _ | qv
    · simp only [buildEntry, h1, h2, jsOr, Value.truthy, JSNumber.truthy,
        Option.getD_none, Option.getD_some]
      by_cases hq : q = 0 <;> simp [hq]
    · simp only [buildEntry, h1, h2, jsOr, Value.truthy, JSNumber.truthy,
        Option.getD_none, Option.getD_some]
      by_cases hq : q = 0 <;> by_cases hqv : qv = 0 <;> simp [hq, hqv]

/-- Witness for C9 amended, at zeroTotalRow (total 0 and total_valid 5
give totalVotes 5) and at munTotalRow (total 100 with the total_valid
column absent gives totalVotes 100). -/
theorem buildEntry_total_fallback_witness :
    (buildEntry none zeroTotalRow "00001").total
      = .num (.fin (if (some (0 : ℚ)).getD 0 ≠ 0 then (some (0 : ℚ)).getD 0
          else if (some (5 : ℚ)).getD 0 ≠ 0 then (some (5 : ℚ)).getD 0 else 0)) ∧
    (buildEntry none munTotalRow "TestMun").total
      = .num (.fin (if (some (100 : ℚ)).getD 0 ≠ 0 then (some (100 : ℚ)).getD 0
          else if (none : Option ℚ).getD 0 ≠ 0 then (none : Option ℚ).getD 0
          else 0)) :=
  ⟨buildEntry_total_fallback none zeroTotalRow "00001" (some 0) (some 5) rfl rfl,
   buildEntry_total_fallback none munTotalRow "TestMun" (some 100) none rfl rfl⟩

/-! Claim C10: an empty parties filter retains all party columns. -/

theorem extractParties_empty_eq_none (r : Row) :
    extractParties (some []) r = extractParties none r := by
  unfold extractParties
  congr 1

theorem buildEntry_empty_eq_none (r : Row) (key : String) :
    buildEntry (some []) r key = buildEntry none r key := by
  unfold buildEntry
  rw [extractParties_empty_eq_none]

theorem processRows_empty_eq_none (regionType : RegionType)
    (regionId : Option String) (rows : List Row) :
    processRows regionType regionId (some []) rows
      = processRows regionType regionId none rows := by
  have hf : (fun (acc : List (String × ElectionEntry)) (r : Row) =>
      let key := rawKey regionType r
      if key.truthy then
        objSet acc (jsToString key) (buildEntry (some []) r (jsToString key))
      else acc)
      = (fun (acc : List (String × ElectionEntry)) (r : Row) =>
      let key := rawKey regionType r
      if key.truthy then
        objSet acc (jsToString key) (buildEntry none r (jsToString key))
      else acc) := by
    funext acc r
    simp only [buildEntry_empty_eq_none]
  unfold processRows
  rw [hf]

/-- C10: a request with an empty parties array yields exactly the same
result as the same request with the parties filter omitted — an empty
filter list retains every numeric non-metadata party column. -/
theorem getElectionData_empty_parties (source : String → Outcome (List Row))
    (cache : ElectionCache) (electionId : String) (regionType : RegionType)
    (regionId : Option String) :
    getElectionData source cache ⟨electionId, regionType, regionId, some []⟩
      = getElectionData source cache ⟨electionId, regionType, regionId, none⟩ := by
  unfold getElectionData
  dsimp only
  rcases hw : withCache cache (electionCacheKey electionId regionType)
      (source (electionDataUrl electionId regionType)) with ⟨o, c2, inv⟩
  cases o <;> simp [processRows_empty_eq_none]

/-! Claim C8: the search guard and match semantics. -/

/-- C8 counterexample: the guard of searchRegions tests the raw query,
not its trimmed form.  The query of one space and the letter a has two
characters raw but one trimmed, and it matches the municipality named
b-space-a, so the result is nonempty although the claim requires the
empty list for a trimmed query shorter than two characters. -/
theorem searchRegions_untrimmed_counterexample :
    ((trimL " a".data).length < 2) ∧
    searchRegions " a" [⟨"b a", ""⟩] [] = [⟨"b a", ""⟩] := by
  exact ⟨by decide, by decide⟩

/-- C8 amended: the empty-result guard applies to the raw untrimmed
query (empty or shorter than two characters); otherwise search returns
exactly the entities whose lower-cased display name contains the
lower-cased raw query as a substring, all municipality matches before
all settlement matches, truncated to the first ten results; the query
var against municipalities Varna and Plovdiv and settlements Varnentsi
and Sopot returns Varna then Varnentsi. -/
theorem searchRegions_characterization :
    (∀ (q : String) (ms ps : List Feature), q.data.length < 2 →
      searchRegions q ms ps = []) ∧
    (∀ (q : String) (ms ps : List Feature), 2 ≤ q.data.length →
      searchRegions q ms ps
        = ((ms.filter (nameMatches (lowerL q.data))
            ++ ps.filter (nameMatches (lowerL q.data))).take 10)) ∧
    searchRegions "var" [⟨"Varna", ""⟩, ⟨"Plovdiv", ""⟩]
        [⟨"Varnentsi", ""⟩, ⟨"Sopot", ""⟩]
      = [⟨"Varna", ""⟩, ⟨"Varnentsi", ""⟩] := by
  refine ⟨?_, ?_, ?_⟩
  · intro q ms ps hq
    unfold searchRegions
    rw [if_pos (Or.inr hq)]
  · intro q ms ps hq
    have hq1 : ¬ (q = "" ∨ q.data.length < 2) := by
      rintro (h1 | h2)
      · subst h1; exact absurd hq (by decide)
      · omega
    unfold searchRegions
    rw [if_neg hq1]
  · decide

/-- Witness for C8 amended: a one-character query returns nothing, and a
two-character query returns the matching municipalities then places,
truncated to ten. -/
theorem searchRegions_characterization_witness :
    searchRegions "x" [] [] = [] ∧
    searchRegions "va" [⟨"Varna", ""⟩] [⟨"Sopot", ""⟩]
      = (([⟨"Varna", ""⟩].filter (nameMatches (lowerL "va".data))
          ++ [⟨"Sopot", ""⟩].filter (nameMatches (lowerL "va".data))).take 10) :=
  ⟨searchRegions_characterization.1 "x" [] [] (by decide),
   searchRegions_characterization.2.1 "va" [⟨"Varna", ""⟩] [⟨"Sopot", ""⟩] (by decide)⟩

/-! Claim C5: the merge layer is a pure, order-preserving join. -/

/-- C5: merge produces exactly one output per input feature in input
order, carrying each input feature through unchanged (the merge is pure:
the enriched value holds the input feature itself), and a feature whose
canonical identifier has no entry in the result map comes through with
no election summary attached, which is distinguishable from an all-zero
summary because the summary is absent rather than present. -/
theorem merge_preserves_features :
    (∀ (geo : List Feature) (res : List (String × ElectionEntry)),
      (mergeData geo res).map (fun m => m.feature) = geo) ∧
    (∀ (features : List Feature) (res : List (String × ElectionEntry)),
      (mergePlacesData features res).map (fun m => m.feature) = features) ∧
    (∀ (geo : List Feature) (res : List (String × ElectionEntry)) (i : ℕ)
       (f : Feature),
      geo[i]? = some f → objGet res f.name = none →
      (mergeData geo res)[i]? = some ⟨f, none⟩) ∧
    (∀ (features : List Feature) (res : List (String × ElectionEntry)) (i : ℕ)
       (f : Feature),
      features[i]? = some f → objGet res f.ekatte = none →
      (mergePlacesData features res)[i]? = some ⟨f, none⟩) := by
  refine ⟨?_, ?_, ?_, ?_⟩
  · intro geo res
    rw [mergeData, List.map_map]
    have hcomp : ((fun m => m.feature) ∘ (fun feature =>
        match objGet res feature.name with
        | some data => ({ feature := feature, electionData := some (summaryOf data) } : MergedFeature)
        | none => ({ feature := feature, electionData := none } : MergedFeature)))
        = id := by
      funext f
      simp only [Function.comp_apply, id_eq]
      cases objGet res f.name <;> rfl
    rw [hcomp, List.map_id]
  · intro features res
    rw [mergePlacesData, List.map_map]
    have hcomp : ((fun m => m.feature) ∘ (fun feature =>
        match objGet res feature.ekatte with
        | some data => ({ feature := feature, electionData := some (summaryOf data) } : MergedFeature)
        | none => ({ feature := feature, electionData := none } : MergedFeature)))
        = id := by
      funext f
      simp only [Function.comp_apply, id_eq]
      cases objGet res f.ekatte <;> rfl
    rw [hcomp, List.map_id]
  · intro geo res i f hf hnone
    rw [mergeData, List.getElem?_map, hf]
    simp [hnone]
  · intro features res i f hf hnone
    rw [mergePlacesData, List.getElem?_map, hf]
    simp [hnone]

/-- Witness for C5: a two-feature merge against a result map matching
only the first feature. -/
theorem merge_preserves_features_witness :
    (mergeData [⟨"X", "00001"⟩, ⟨"Y", "00002"⟩] []).map (fun m => m.feature)
      = [⟨"X", "00001"⟩, ⟨"Y", "00002"⟩] ∧
    (mergeData [⟨"X", "00001"⟩] [])[0]? = some ⟨⟨"X", "00001"⟩, none⟩ :=
  ⟨merge_preserves_features.1 [⟨"X", "00001"⟩, ⟨"Y", "00002"⟩] [],
   merge_preserves_features.2.2.1 [⟨"X", "00001"⟩] [] 0 ⟨"X", "00001"⟩ rfl rfl⟩

/-! Claim C6: ranked percentages and the zero-total division. -/

theorem mem_sortByVotes {l : List TopParty} {x : TopParty} :
    x ∈ sortByVotes l ↔ x ∈ l :=
  (sortStable_perm keepBefore l).mem_iff

/-- A matched result record with zero total votes and one party column. -/
def zeroTotalEntry : ElectionEntry :=
  { id := "M", total := .num (.fin 0), results := [("A", .fin 60)],
    meta := { activity := .num (.fin 0), eligible := .num (.fin 0) } }

/-- C6 counterexample: merging a feature against a matched record whose
totalVotes is 0 computes the percentage 60 divided by 0 times 100, which
is positive infinity under JavaScript division, not 0 as the claim
requires. -/
theorem merge_zero_total_counterexample :
    mergeData [⟨"M", ""⟩] [("M", zeroTotalEntry)]
      = [⟨⟨"M", ""⟩,
          some ⟨.num (.fin 0), .fin 0, [⟨"A", .fin 60, .posInf⟩]⟩⟩] ∧
    JSNumber.posInf ≠ JSNumber.fin 0 := by
  exact ⟨by decide, by decide⟩

/-- C6 amended: every ranked entry's percentage is votes divided by
total, times 100, under JavaScript number semantics.  When the record's
total is a nonzero finite number t, a party with v votes gets the finite
percentage v / t * 100; when total is 0 the merge layer produces a
non-finite percentage (infinity or NaN) rather than 0.  The
municipality aggregation only ranks parties when the aggregated
totalVotes is positive, so its percentages always divide by a positive
total; its turnout falls back to 0 only on zero eligible voters. -/
theorem percentage_law :
    (∀ (entry : ElectionEntry) (tp : TopParty),
      tp ∈ (summaryOf entry).topParties →
      tp.percentage = (tp.votes.div (toNumber entry.total)).mul (.fin 100)) ∧
    (∀ (entry : ElectionEntry) (t v : ℚ) (p : String),
      toNumber entry.total = .fin t → t ≠ 0 →
      (p, JSNumber.fin v) ∈ entry.results →
      ({ party := p, votes := .fin v, percentage := .fin (v / t * 100) } : TopParty)
        ∈ (summaryOf entry).topParties) ∧
    (∀ (placesData : List PlaceRef) (res : List (String × ElectionEntry))
       (geo : List Feature) (i : ℕ) (m : MergedFeature) (s : ElectionSummary),
      (aggregateSettlementsToMunicipalities placesData res geo)[i]? = some m →
      m.electionData = some s →
      (toNumber s.totalVotes).gtZero = true ∧
      ∀ tp ∈ s.topParties,
        tp.percentage = (tp.votes.div (toNumber s.totalVotes)).mul (.fin 100)) := by
  refine ⟨?_, ?_, ?_⟩
  · intro entry tp htp
    simp only [summaryOf] at htp
    rcases List.mem_map.mp (mem_sortByVotes.mp htp) with ⟨p, _, rfl⟩
    rfl
  · intro entry t v p ht htne hmem
    simp only [summaryOf]
    refine mem_sortByVotes.mpr (List.mem_map.mpr ⟨(p, JSNumber.fin v), hmem, ?_⟩)
    simp [ht, JSNumber.div, JSNumber.mul, htne]
  · intro placesData res geo i m s hm hs
    rw [aggregateSettlementsToMunicipalities, List.getElem?_map] at hm
    rcases hgeo : geo[i]? with _ | f
    · rw [hgeo] at hm; exact absurd hm (by simp)
    · rw [hgeo] at hm
      simp only [Option.map_some'] at hm
      by_cases hgt : (toNumber (aggRun res
          (placesData.filter (fun p => p.obshtina == f.name))).totalVotes).gtZero
      · rw [if_pos hgt] at hm
        injection hm.symm with hm3
        subst hm3
        simp only at hs
        injection hs with hs2
        subst hs2
        constructor
        · exact hgt
        · intro tp htp
          rcases List.mem_map.mp (mem_sortByVotes.mp htp) with ⟨p, _, rfl⟩
          rfl
      · rw [if_neg hgt] at hm
        injection hm.symm with hm3
        subst hm3
        simp at hs

/-- Witness for C6 amended: a record with total 200 and party A at 60
votes ranks A at 30 percent. -/
theorem percentage_law_witness :
    ({ party := "A", votes := .fin 60,
       percentage := .fin (60 / 200 * 100) } : TopParty)
      ∈ (summaryOf
          { id := "M", total := .num (.fin 200), results := [("A", .fin 60)],
            meta := { activity := .num (.fin 0),
                      eligible := .num (.fin 0) } }).topParties :=
  percentage_law.2.1
    { id := "M", total := .num (.fin 200), results := [("A", .fin 60)],
      meta := { activity := .num (.fin 0), eligible := .num (.fin 0) } }
    200 60 "A" rfl (by norm_num) (by simp)

/-! Claim C4: cross-election party rollup (spec-modelled). -/

theorem objGet_isSome_eq_any (m : List (String × α)) (p : String) :
    (objGet m p).isSome = m.any (fun x => x.1 == p) := by
  induction m with
  | nil => rfl
  | cons x t ih =>
      by_cases hx : x.1 == p <;>
        simp [objGet, List.find?, hx, List.any_cons, ← ih, objGet]

theorem objSet_any (m : List (String × α)) (k p : String) (v : α) :
    (objSet m k v).any (fun x => x.1 == p)
      = (m.any (fun x => x.1 == p) || (k == p)) := by
  by_cases hp : p = k
  · subst hp
    rw [← objGet_isSome_eq_any, objGet_objSet_self]
    simp
  · rw [← objGet_isSome_eq_any, objGet_objSet_ne m k p v hp,
      objGet_isSome_eq_any]
    have hk : (k == p) = false := by
      simp only [beq_eq_false_iff_ne, ne_eq]
      exact fun he => hp he.symm
    simp [hk]

/-- Total votes for one party inside one election's national mapping. -/
def sumIn (e : List (String × ℕ)) (p : String) : ℕ :=
  ((e.filter (fun x => x.1 == p)).map (fun x => x.2)).sum

/-- Total votes for one party summed across a list of elections. -/
def votesAcross (perElection : List (List (String × ℕ))) (p : String) : ℕ :=
  (perElection.map (fun e => sumIn e p)).sum

theorem addElection_getD (e : List (String × ℕ)) :
    ∀ (acc : List (String × ℕ)) (p : String),
      (objGet (addElection acc e) p).getD 0
        = (objGet acc p).getD 0 + sumIn e p := by
  induction e with
  | nil => intro acc p; simp [addElection, sumIn]
  | cons r t ih =>
      intro acc p
      have hstep : addElection acc (r :: t)
          = addElection (objSet acc r.1 (((objGet acc r.1).getD 0) + r.2)) t := rfl
      rw [hstep, ih]
      by_cases hr : r.1 == p
      · have hp : p = r.1 := by
          have := (beq_iff_eq).mp hr
          exact this.symm
        subst hp
        rw [objGet_objSet_self]
        have hsum : sumIn (r :: t) r.1 = r.2 + sumIn t r.1 := by
          simp [sumIn, List.filter_cons]
        rw [hsum]
        simp only [Option.getD_some]
        omega
      · have hp : ¬ p = r.1 := by
          intro he
          rw [he] at hr
          simp at hr
        rw [objGet_objSet_ne acc r.1 p _ hp]
        have hsum : sumIn (r :: t) p = sumIn t p := by
          simp [sumIn, List.filter_cons, hr]
        rw [hsum]

theorem addElection_any (e : List (String × ℕ)) :
    ∀ (acc : List (String × ℕ)) (p : String),
      (addElection acc e).any (fun x => x.1 == p)
        = (acc.any (fun x => x.1 == p) || e.any (fun x => x.1 == p)) := by
  induction e with
  | nil => intro acc p; simp [addElection]
  | cons r t ih =>
      intro acc p
      have hstep : addElection acc (r :: t)
          = addElection (objSet acc r.1 (((objGet acc r.1).getD 0) + r.2)) t := rfl
      rw [hstep, ih, objSet_any]
      simp [List.any_cons, Bool.or_assoc, Bool.or_comm, Bool.or_left_comm]

theorem sumAcross_getD_aux (perElection : List (List (String × ℕ))) :
    ∀ (acc : List (String × ℕ)) (p : String),
      (objGet (perElection.foldl addElection acc) p).getD 0
        = (objGet acc p).getD 0 + votesAcross perElection p := by
  induction perElection with
  | nil => intro acc p; simp [votesAcross]
  | cons e t ih =>
      intro acc p
      have hstep : (e :: t).foldl addElection acc = t.foldl addElection (addElection acc e) := rfl
      rw [hstep, ih, addElection_getD]
      simp [votesAcross]
      omega

theorem sumAcross_any_aux (perElection : List (List (String × ℕ))) :
    ∀ (acc : List (String × ℕ)) (p : String),
      (perElection.foldl addElection acc).any (fun x => x.1 == p)
        = (acc.any (fun x => x.1 == p)
            || perElection.any (fun e => e.any (fun x => x.1 == p))) := by
  induction perElection with
  | nil => intro acc p; simp
  | cons e t ih =>
      intro acc p
      have hstep : (e :: t).foldl addElection acc = t.foldl addElection (addElection acc e) := rfl
      rw [hstep, ih, addElection_any]
      simp [List.any_cons, Bool.or_assoc]

/-- C4 (spec-modelled): the cross-election rollup sums votes per party
name across all supplied elections — a party present in only some
elections keeps its partial sum, a party present in none is absent —
and returns the parties ranked by summed votes descending (the result
is a permutation of the per-party sums, sorted descending); on
E1 with A 100 and B 50 and E2 with A 50, B 50 and C 200, the ranked
order is C 200, then A 150, then B 100. -/
theorem rollupAcrossElections_ranking :
    (∀ (perElection : List (List (String × ℕ))) (p : String),
      objGet (sumAcrossElections perElection) p
        = if perElection.any (fun e => e.any (fun x => x.1 == p))
          then some (votesAcross perElection p) else none) ∧
    (∀ perElection : List (List (String × ℕ)),
      (rollupAcrossElections perElection).Perm (sumAcrossElections perElection)) ∧
    (∀ perElection : List (List (String × ℕ)),
      (rollupAcrossElections perElection).Pairwise (fun a b => b.2 ≤ a.2)) ∧
    rollupAcrossElections [[("A", 100), ("B", 50)], [("A", 50), ("B", 50), ("C", 200)]]
      = [("C", 200), ("A", 150), ("B", 100)] := by
  refine ⟨?_, ?_, ?_, by decide⟩
  · intro perElection p
    by_cases hany : perElection.any (fun e => e.any (fun x => x.1 == p))
    · rw [if_pos hany]
      have hsome : (objGet (sumAcrossElections perElection) p).isSome = true := by
        rw [objGet_isSome_eq_any, sumAcrossElections, sumAcross_any_aux]
        simp [hany]
      rcases Option.isSome_iff_exists.mp hsome with ⟨v, hv⟩
      have hval := sumAcross_getD_aux perElection [] p
      rw [← sumAcrossElections] at hval
      rw [hv] at hval
      simp only [Option.getD_some] at hval
      have hnil : (objGet ([] : List (String × ℕ)) p).getD 0 = 0 := rfl
      rw [hnil, Nat.zero_add] at hval
      rw [hv, hval]
    · rw [if_neg hany]
      have hnone : (objGet (sumAcrossElections perElection) p).isSome = false := by
        rw [objGet_isSome_eq_any, sumAcrossElections, sumAcross_any_aux]
        simpa using hany
      exact Option.not_isSome_iff_eq_none.mp (by simp [hnone])
  · intro perElection
    exact sortStable_perm _ _
  · intro perElection
    exact rankDesc_sorted _

/-! Claim C3: upward rollup of settlements into municipalities. -/

/-- The finite rational carried by a record's total, 0 otherwise. -/
def finTotal (e : ElectionEntry) : ℚ :=
  match e.total with
  | .num (.fin q) => q
  | _ => 0

/-- The finite rational carried by a record's eligible count, 0
otherwise. -/
def finEligible (e : ElectionEntry) : ℚ :=
  match e.meta.eligible with
  | .num (.fin q) => q
  | _ => 0

/-- The finite rational carried by a number, 0 otherwise. -/
def finVotes (x : JSNumber) : ℚ :=
  match x with
  | .fin q => q
  | _ => 0

/-- The finite rational inside an optional number, 0 otherwise. -/
def finOptQ (o : Option JSNumber) : ℚ :=
  match o with
  | some (.fin q) => q
  | _ => 0

/-- The votes a party mapping assigns to one party name. -/
def votesQ (rs : List (String × JSNumber)) (p : String) : ℚ :=
  ((rs.filter (fun x => x.1 == p)).map (fun x => finVotes x.2)).sum

/-- The votes one record's party mapping assigns to one party name. -/
def partyVotesIn (e : ElectionEntry) (p : String) : ℚ := votesQ e.results p

/-- Does one record's party mapping mention a party name. -/
def partyPresent (e : ElectionEntry) (p : String) : Bool :=
  e.results.any (fun x => x.1 == p)

/-- The contributing records of a group of places: those with a result
record, in place order. -/
def contrib (res : List (String × ElectionEntry)) (places : List PlaceRef) :
    List ElectionEntry :=
  places.filterMap (fun p => objGet res p.ekatte)

theorem aggRun_eq_contrib (res : List (String × ElectionEntry))
    (places : List PlaceRef) :
    aggRun res places = (contrib res places).foldl aggPlace aggInit := by
  have main : ∀ (places : List PlaceRef) (st : AggState),
      places.foldl (fun st p =>
        match objGet res p.ekatte with
        | some e => aggPlace st e
        | none => st) st
      = (contrib res places).foldl aggPlace st := by
    intro places
    induction places with
    | nil => intro st; rfl
    | cons p t ih =>
        intro st
        cases h : objGet res p.ekatte with
        | none => simp [contrib, List.filterMap_cons, h, ih]
        | some e => simp [contrib, List.filterMap_cons, h, ih]
  rw [aggRun]
  exact main places aggInit

theorem jsOr_num_fin_zero (q : ℚ) :
    jsOr (.num (.fin q)) (.num (.fin 0)) = .num (.fin q) := by
  by_cases hq : q = 0 <;> simp [jsOr, Value.truthy, JSNumber.truthy, hq]

theorem jsPlus_num_fin (a b : ℚ) :
    jsPlus (.num (.fin a)) (.num (.fin b)) = .num (.fin (a + b)) := rfl

theorem finTotal_eq {e : ElectionEntry} {q : ℚ}
    (h : e.total = Value.num (.fin q)) : finTotal e = q := by
  simp [finTotal, h]

theorem finEligible_eq {e : ElectionEntry} {q : ℚ}
    (h : e.meta.eligible = Value.num (.fin q)) : finEligible e = q := by
  simp [finEligible, h]

theorem foldl_aggPlace_totals (es : List ElectionEntry)
    (h : ∀ e ∈ es, (∃ q, e.total = Value.num (.fin q)) ∧
      (∃ q, e.meta.eligible = Value.num (.fin q))) :
    ∀ (st : AggState) (a b : ℚ),
      st.totalVotes = .num (.fin a) → st.totalEligible = .num (.fin b) →
      (es.foldl aggPlace st).totalVotes
        = .num (.fin (a + (es.map finTotal).sum)) ∧
      (es.foldl aggPlace st).totalEligible
        = .num (.fin (b + (es.map finEligible).sum)) := by
  induction es with
  | nil =>
      intro st a b hva hvb
      constructor
      · simpa using hva
      · simpa using hvb
  | cons e t ih =>
      intro st a b hva hvb
      rcases h e (List.mem_cons_self e t) with ⟨⟨qe, hqe⟩, ⟨ge, hge⟩⟩
      have ht : ∀ x ∈ t, (∃ q, x.total = Value.num (.fin q)) ∧
          (∃ q, x.meta.eligible = Value.num (.fin q)) :=
        fun x hx => h x (List.mem_cons_of_mem e hx)
      have hstep : (e :: t).foldl aggPlace st = t.foldl aggPlace (aggPlace st e) := rfl
      rw [hstep]
      have hv2 : (aggPlace st e).totalVotes = .num (.fin (a + qe)) := by
        simp [aggPlace, hva, hqe, jsOr_num_fin_zero, jsPlus_num_fin]
      have hb2 : (aggPlace st e).totalEligible = .num (.fin (b + ge)) := by
        simp [aggPlace, hvb, hge, jsOr_num_fin_zero, jsPlus_num_fin]
      rcases ih ht (aggPlace st e) (a + qe) (b + ge) hv2 hb2 with ⟨c1, c2⟩
      constructor
      · rw [c1]
        congr 2
        rw [List.map_cons, List.sum_cons, finTotal_eq hqe]
        ring
      · rw [c2]
        congr 2
        rw [List.map_cons, List.sum_cons, finEligible_eq hge]
        ring

theorem objGet_mem (m : List (String × α)) (k : String) (x : α)
    (h : objGet m k = some x) : ∃ pair ∈ m, pair.2 = x := by
  unfold objGet at h
  rcases Option.map_eq_some'.mp h with ⟨pair, hfind, hx⟩
  exact ⟨pair, List.mem_of_find?_eq_some hfind, hx⟩

theorem objGet_fin_shape (m : List (String × JSNumber)) (k : String)
    (hm : ∀ x ∈ m, ∃ q, x.2 = JSNumber.fin q) (x : JSNumber)
    (h : objGet m k = some x) : ∃ q, x = JSNumber.fin q := by
  rcases objGet_mem m k x h with ⟨pair, hmem, hx⟩
  rcases hm pair hmem with ⟨q, hq⟩
  exact ⟨q, by rw [← hx, hq]⟩

theorem orZero_finOptQ (m : List (String × JSNumber)) (k : String)
    (hm : ∀ x ∈ m, ∃ q, x.2 = JSNumber.fin q) :
    orZeroNum (objGet m k) = .fin (finOptQ (objGet m k)) := by
  cases h : objGet m k with
  | none => rfl
  | some x =>
      rcases objGet_fin_shape m k hm x h with ⟨q, rfl⟩
      by_cases hq : q = 0 <;> simp [orZeroNum, JSNumber.truthy, finOptQ, hq]

theorem objSet_forall {P : α → Prop} (m : List (String × α)) (k : String)
    (v : α) (hm : ∀ x ∈ m, P x.2) (hv : P v) :
    ∀ x ∈ objSet m k v, P x.2 := by
  intro x hx
  unfold objSet at hx
  by_cases ha : m.any (fun q => q.1 == k)
  · rw [if_pos ha] at hx
    rcases List.mem_map.mp hx with ⟨y, hy, hyx⟩
    by_cases hk : y.1 == k
    · rw [if_pos hk] at hyx; rw [← hyx]; exact hv
    · rw [if_neg hk] at hyx; rw [← hyx]; exact hm y hy
  · rw [if_neg ha] at hx
    rcases List.mem_append.mp hx with h1 | h2
    · exact hm x h1
    · have := List.mem_singleton.mp h2
      rw [this]
      exact hv

theorem aggParties_getQ (rs : List (String × JSNumber)) :
    ∀ (acc : List (String × JSNumber)) (p : String),
      (∀ x ∈ acc, ∃ q, x.2 = JSNumber.fin q) →
      (∀ x ∈ rs, ∃ q, x.2 = JSNumber.fin q) →
      finOptQ (objGet (aggParties acc rs) p)
        = finOptQ (objGet acc p) + votesQ rs p := by
  induction rs with
  | nil => intro acc p _ _; simp [aggParties, votesQ]
  | cons r t ih =>
      intro acc p hacc hrs
      rcases hrs r (List.mem_cons_self r t) with ⟨qr, hqr⟩
      have hrt : ∀ x ∈ t, ∃ q, x.2 = JSNumber.fin q :=
        fun x hx => hrs x (List.mem_cons_of_mem r hx)
      have hv2 : (orZeroNum (objGet acc r.1)).add r.2
          = .fin (finOptQ (objGet acc r.1) + qr) := by
        rw [orZero_finOptQ acc r.1 hacc, hqr]
        rfl
      have hstep : aggParties acc (r :: t)
          = aggParties (objSet acc r.1 ((orZeroNum (objGet acc r.1)).add r.2)) t := rfl
      have hacc2 : ∀ x ∈ objSet acc r.1 ((orZeroNum (objGet acc r.1)).add r.2),
          ∃ q, x.2 = JSNumber.fin q := by
        refine objSet_forall (P := fun v => ∃ q, v = JSNumber.fin q) acc r.1 _ hacc ?_
        rw [hv2]
        exact ⟨_, rfl⟩
      rw [hstep, ih _ p hacc2 hrt]
      by_cases hr : r.1 == p
      · have hp : p = r.1 := ((beq_iff_eq).mp hr).symm
        subst hp
        rw [objGet_objSet_self, hv2]
        have hsum : votesQ (r :: t) r.1 = qr + votesQ t r.1 := by
          simp [votesQ, List.filter_cons, finVotes, hqr]
        rw [hsum]
        simp only [finOptQ]
        ring
      · have hp : ¬ p = r.1 := by
          intro he
          rw [he] at hr
          simp at hr
        rw [objGet_objSet_ne acc r.1 p _ hp]
        have hsum : votesQ (r :: t) p = votesQ t p := by
          simp [votesQ, List.filter_cons, hr]
        rw [hsum]

theorem aggParties_any (rs : List (String × JSNumber)) :
    ∀ (acc : List (String × JSNumber)) (p : String),
      (aggParties acc rs).any (fun x => x.1 == p)
        = (acc.any (fun x => x.1 == p) || rs.any (fun x => x.1 == p)) := by
  induction rs with
  | nil => intro acc p; simp [aggParties]
  | cons r t ih =>
      intro acc p
      have hstep : aggParties acc (r :: t)
          = aggParties (objSet acc r.1 ((orZeroNum (objGet acc r.1)).add r.2)) t := rfl
      rw [hstep, ih, objSet_any]
      simp [List.any_cons, Bool.or_assoc, Bool.or_comm, Bool.or_left_comm]

theorem aggParties_fin (rs : List (String × JSNumber)) :
    ∀ (acc : List (String × JSNumber)),
      (∀ x ∈ acc, ∃ q, x.2 = JSNumber.fin q) →
      (∀ x ∈ rs, ∃ q, x.2 = JSNumber.fin q) →
      ∀ x ∈ aggParties acc rs, ∃ q, x.2 = JSNumber.fin q := by
  induction rs with
  | nil => intro acc hacc _; exact hacc
  | cons r t ih =>
      intro acc hacc hrs
      rcases hrs r (List.mem_cons_self r t) with ⟨qr, hqr⟩
      have hrt : ∀ x ∈ t, ∃ q, x.2 = JSNumber.fin q :=
        fun x hx => hrs x (List.mem_cons_of_mem r hx)
      have hv2 : (orZeroNum (objGet acc r.1)).add r.2
          = .fin (finOptQ (objGet acc r.1) + qr) := by
        rw [orZero_finOptQ acc r.1 hacc, hqr]
        rfl
      have hacc2 : ∀ x ∈ objSet acc r.1 ((orZeroNum (objGet acc r.1)).add r.2),
          ∃ q, x.2 = JSNumber.fin q := by
        refine objSet_forall (P := fun v => ∃ q, v = JSNumber.fin q) acc r.1 _ hacc ?_
        rw [hv2]
        exact ⟨_, rfl⟩
      exact ih _ hacc2 hrt

theorem foldl_aggPlace_parties (es : List ElectionEntry) :
    ∀ (st : AggState) (p : String),
      (∀ x ∈ st.parties, ∃ q, x.2 = JSNumber.fin q) →
      (∀ e ∈ es, ∀ x ∈ e.results, ∃ q, x.2 = JSNumber.fin q) →
      finOptQ (objGet ((es.foldl aggPlace st).parties) p)
        = finOptQ (objGet st.parties p) + (es.map (fun e => partyVotesIn e p)).sum ∧
      ((es.foldl aggPlace st).parties).any (fun x => x.1 == p)
        = (st.parties.any (fun x => x.1 == p)
            || es.any (fun e => partyPresent e p)) ∧
      (∀ x ∈ (es.foldl aggPlace st).parties, ∃ q, x.2 = JSNumber.fin q) := by
  induction es with
  | nil =>
      intro st p hst _
      refine ⟨by simp, by simp, hst⟩
  | cons e t ih =>
      intro st p hst hes
      have he : ∀ x ∈ e.results, ∃ q, x.2 = JSNumber.fin q :=
        hes e (List.mem_cons_self e t)
      have hts : ∀ x ∈ t, ∀ y ∈ x.results, ∃ q, y.2 = JSNumber.fin q :=
        fun x hx => hes x (List.mem_cons_of_mem e hx)
      have hstep : (e :: t).foldl aggPlace st = t.foldl aggPlace (aggPlace st e) := rfl
      have hparts : (aggPlace st e).parties = aggParties st.parties e.results := rfl
      have hfin2 : ∀ x ∈ (aggPlace st e).parties, ∃ q, x.2 = JSNumber.fin q := by
        rw [hparts]
        exact aggParties_fin e.results st.parties hst he
      rcases ih (aggPlace st e) p hfin2 hts with ⟨c1, c2, c3⟩
      refine ⟨?_, ?_, by rw [hstep]; exact c3⟩
      · rw [hstep, c1, hparts, aggParties_getQ e.results st.parties p hst he]
        simp [partyVotesIn]
        ring
      · rw [hstep, c2, hparts, aggParties_any]
        simp [List.any_cons, partyPresent, Bool.or_assoc]

/-- First example settlement record: 100 total votes, 200 eligible,
party A 60 and party B 40. -/
def entryEx1 : ElectionEntry :=
  { id := "68134", total := .num (.fin 100),
    results := [("A", .fin 60), ("B", .fin 40)],
    meta := { activity := .num (.fin 0), eligible := .num (.fin 200) } }

/-- Second example settlement record: 200 total votes, 300 eligible,
party A 140 and party B 60. -/
def entryEx2 : ElectionEntry :=
  { id := "68135", total := .num (.fin 200),
    results := [("A", .fin 140), ("B", .fin 60)],
    meta := { activity := .num (.fin 0), eligible := .num (.fin 300) } }

/-- The sums part of the rollup: over the contributing records of a
group, totalVotes and totalEligible are the sums of the per-record
finite totals (a record absent from the results contributes nothing,
matching absent-treated-as-0). -/
theorem aggRun_totals_sum (res : List (String × ElectionEntry))
    (places : List PlaceRef)
    (h : ∀ e ∈ contrib res places,
      (∃ q, e.total = Value.num (.fin q)) ∧
      (∃ q, e.meta.eligible = Value.num (.fin q))) :
    (aggRun res places).totalVotes
      = .num (.fin (((contrib res places).map finTotal).sum)) ∧
    (aggRun res places).totalEligible
      = .num (.fin (((contrib res places).map finEligible).sum)) := by
  rw [aggRun_eq_contrib]
  rcases foldl_aggPlace_totals (contrib res places) h aggInit 0 0 rfl rfl with ⟨c1, c2⟩
  rw [zero_add] at c1 c2
  exact ⟨c1, c2⟩

/-- The party part of the rollup: each party over the union of the
contributing records gets the sum of its votes; a party mentioned by no
contributing record has no entry. -/
theorem aggRun_parties_sum (res : List (String × ElectionEntry))
    (places : List PlaceRef) (p : String)
    (h : ∀ e ∈ contrib res places, ∀ x ∈ e.results, ∃ q, x.2 = JSNumber.fin q) :
    objGet ((aggRun res places).parties) p
      = if (contrib res places).any (fun e => partyPresent e p)
        then some (.fin (((contrib res places).map (fun e => partyVotesIn e p)).sum))
        else none := by
  rw [aggRun_eq_contrib]
  have hnil : ∀ x ∈ aggInit.parties, ∃ q, x.2 = JSNumber.fin q := by
    intro x hx
    exact absurd hx (List.not_mem_nil x)
  rcases foldl_aggPlace_parties (contrib res places) aggInit p hnil h with ⟨c1, c2, c3⟩
  have hval : finOptQ
      (objGet (((contrib res places).foldl aggPlace aggInit).parties) p)
      = ((contrib res places).map (fun e => partyVotesIn e p)).sum := by
    rw [c1]
    simp [aggInit, objGet, finOptQ]
  by_cases hany : (contrib res places).any (fun e => partyPresent e p)
  · rw [if_pos hany]
    have hsome : (objGet (((contrib res places).foldl aggPlace aggInit).parties) p).isSome
        = true := by
      rw [objGet_isSome_eq_any, c2]
      simp [aggInit, hany]
    rcases Option.isSome_iff_exists.mp hsome with ⟨x, hx⟩
    rcases objGet_fin_shape _ p c3 x hx with ⟨q, rfl⟩
    rw [hx] at hval ⊢
    simp only [finOptQ] at hval
    rw [hval]
  · rw [if_neg hany]
    have hnone : (objGet (((contrib res places).foldl aggPlace aggInit).parties) p).isSome
        = false := by
      rw [objGet_isSome_eq_any, c2]
      simpa [aggInit] using hany
    exact Option.not_isSome_iff_eq_none.mp (by simp [hnone])

/-- The guard and turnout part of the rollup: with aggregated finite
totals T and G, a positive T attaches a summary whose totalVotes is T
and whose turnout is T over G, or 0 when G is not positive; a
non-positive T attaches no summary. -/
theorem aggregate_guard (placesData : List PlaceRef)
    (res : List (String × ElectionEntry)) (geo : List Feature) (i : ℕ)
    (f : Feature) (T G : ℚ) (hgeo : geo[i]? = some f)
    (hT : (aggRun res (placesData.filter (fun p => p.obshtina == f.name))).totalVotes
      = .num (.fin T))
    (hG : (aggRun res (placesData.filter (fun p => p.obshtina == f.name))).totalEligible
      = .num (.fin G)) :
    (0 < T →
      ∃ s, (aggregateSettlementsToMunicipalities placesData res geo)[i]?
          = some ⟨f, some s⟩ ∧
        s.totalVotes = .num (.fin T) ∧
        s.activity = (if 0 < G then .fin (T / G) else .fin 0)) ∧
    (¬ 0 < T →
      (aggregateSettlementsToMunicipalities placesData res geo)[i]?
        = some ⟨f, none⟩) := by
  constructor
  · intro hTpos
    rw [aggregateSettlementsToMunicipalities, List.getElem?_map, hgeo,
      Option.map_some']
    have hgt : (toNumber (aggRun res
        (placesData.filter (fun p => p.obshtina == f.name))).totalVotes).gtZero
        = true := by
      rw [hT]
      simpa [toNumber, JSNumber.gtZero] using hTpos
    rw [if_pos hgt]
    refine ⟨_, rfl, hT, ?_⟩
    rw [hT, hG]
    by_cases hGpos : 0 < G
    · simp [toNumber, JSNumber.gtZero, JSNumber.div, hGpos, ne_of_gt hGpos]
    · simp [toNumber, JSNumber.gtZero, hGpos]
  · intro hTneg
    rw [aggregateSettlementsToMunicipalities, List.getElem?_map, hgeo,
      Option.map_some']
    have hgt : (toNumber (aggRun res
        (placesData.filter (fun p => p.obshtina == f.name))).totalVotes).gtZero
        = false := by
      rw [hT]
      simpa [toNumber, JSNumber.gtZero] using hTneg
    rw [if_neg (by simp [hgt])]

/-- The empty-group part of the rollup: a municipality with no places
gets no summary. -/
theorem aggregate_empty_group (placesData : List PlaceRef)
    (res : List (String × ElectionEntry)) (geo : List Feature) (i : ℕ)
    (f : Feature) (hgeo : geo[i]? = some f)
    (hfilter : placesData.filter (fun p => p.obshtina == f.name) = []) :
    (aggregateSettlementsToMunicipalities placesData res geo)[i]?
      = some ⟨f, none⟩ := by
  rw [aggregateSettlementsToMunicipalities, List.getElem?_map, hgeo,
    Option.map_some', hfilter]
  simp [aggRun, aggInit, toNumber, JSNumber.gtZero]

/-- The example result map. -/
def resEx : List (String × ElectionEntry) := [("68134", entryEx1), ("68135", entryEx2)]

/-- The example places, two settlements under municipality M. -/
def placesEx : List PlaceRef := [⟨"68134", "M"⟩, ⟨"68135", "M"⟩]

theorem contrib_resEx : contrib resEx placesEx = [entryEx1, entryEx2] := by decide

theorem resEx_totals_fin : ∀ e ∈ contrib resEx placesEx,
    (∃ q, e.total = Value.num (.fin q)) ∧
    (∃ q, e.meta.eligible = Value.num (.fin q)) := by
  intro e he
  rw [contrib_resEx] at he
  rcases List.mem_cons.mp he with rfl | he2
  · exact ⟨⟨100, rfl⟩, ⟨200, rfl⟩⟩
  · rcases List.mem_singleton.mp he2 with rfl
    exact ⟨⟨200, rfl⟩, ⟨300, rfl⟩⟩

theorem resEx_results_fin : ∀ e ∈ contrib resEx placesEx,
    ∀ x ∈ e.results, ∃ q, x.2 = JSNumber.fin q := by
  intro e he
  rw [contrib_resEx] at he
  rcases List.mem_cons.mp he with rfl | he2
  · intro x hx
    rcases List.mem_cons.mp hx with rfl | hx2
    · exact ⟨60, rfl⟩
    · rcases List.mem_singleton.mp hx2 with rfl
      exact ⟨40, rfl⟩
  · rcases List.mem_singleton.mp he2 with rfl
    intro x hx
    rcases List.mem_cons.mp hx with rfl | hx2
    · exact ⟨140, rfl⟩
    · rcases List.mem_singleton.mp hx2 with rfl
      exact ⟨60, rfl⟩

theorem aggRun_ex_totalVotes : (aggRun resEx placesEx).totalVotes = .num (.fin 300) := by
  have h := (aggRun_totals_sum resEx placesEx resEx_totals_fin).1
  rw [contrib_resEx] at h
  rw [h]
  norm_num [finTotal, entryEx1, entryEx2]

theorem aggRun_ex_totalEligible :
    (aggRun resEx placesEx).totalEligible = .num (.fin 500) := by
  have h := (aggRun_totals_sum resEx placesEx resEx_totals_fin).2
  rw [contrib_resEx] at h
  rw [h]
  norm_num [finEligible, entryEx1, entryEx2]

/-- C3: the upward rollup sums totalVotes, sums eligibleVoters treating
absent as 0, sums partyVotes per party key over the union of parties of
the contributing records, and recomputes turnout as totalVotes over
eligibleVoters with 0 on zero eligible voters; a group with zero
contributing records (hence zero total votes) yields no aggregated
summary rather than an all-zero one; and the two-settlement example
(100 votes of 200 eligible with A 60 and B 40, plus 200 votes of 300
eligible with A 140 and B 60) aggregates to totalVotes 300, eligible
500, turnout 3/5, and party sums A 200 and B 100. -/
theorem aggregate_rollup :
    (∀ (res : List (String × ElectionEntry)) (places : List PlaceRef),
      (∀ e ∈ contrib res places,
        (∃ q, e.total = Value.num (.fin q)) ∧
        (∃ q, e.meta.eligible = Value.num (.fin q))) →
      (aggRun res places).totalVotes
        = .num (.fin (((contrib res places).map finTotal).sum)) ∧
      (aggRun res places).totalEligible
        = .num (.fin (((contrib res places).map finEligible).sum))) ∧
    (∀ (res : List (String × ElectionEntry)) (places : List PlaceRef) (p : String),
      (∀ e ∈ contrib res places, ∀ x ∈ e.results, ∃ q, x.2 = JSNumber.fin q) →
      objGet ((aggRun res places).parties) p
        = if (contrib res places).any (fun e => partyPresent e p)
          then some (.fin (((contrib res places).map (fun e => partyVotesIn e p)).sum))
          else none) ∧
    (∀ (placesData : List PlaceRef) (res : List (String × ElectionEntry))
       (geo : List Feature) (i : ℕ) (f : Feature) (T G : ℚ),
      geo[i]? = some f →
      (aggRun res (placesData.filter (fun p => p.obshtina == f.name))).totalVotes
        = .num (.fin T) →
      (aggRun res (placesData.filter (fun p => p.obshtina == f.name))).totalEligible
        = .num (.fin G) →
      (0 < T →
        ∃ s, (aggregateSettlementsToMunicipalities placesData res geo)[i]?
            = some ⟨f, some s⟩ ∧
          s.totalVotes = .num (.fin T) ∧
          s.activity = (if 0 < G then .fin (T / G) else .fin 0)) ∧
      (¬ 0 < T →
        (aggregateSettlementsToMunicipalities placesData res geo)[i]?
          = some ⟨f, none⟩)) ∧
    (∀ (placesData : List PlaceRef) (res : List (String × ElectionEntry))
       (geo : List Feature) (i : ℕ) (f : Feature),
      geo[i]? = some f →
      placesData.filter (fun p => p.obshtina == f.name) = [] →
      (aggregateSettlementsToMunicipalities placesData res geo)[i]?
        = some ⟨f, none⟩) ∧
    ((aggRun resEx placesEx).totalVotes = .num (.fin 300) ∧
     (aggRun resEx placesEx).totalEligible = .num (.fin 500) ∧
     objGet ((aggRun resEx placesEx).parties) "A" = some (.fin 200) ∧
     objGet ((aggRun resEx placesEx).parties) "B" = some (.fin 100) ∧
     ∃ s, (aggregateSettlementsToMunicipalities placesEx resEx [⟨"M", ""⟩])[0]?
         = some ⟨⟨"M", ""⟩, some s⟩ ∧
       s.totalVotes = .num (.fin 300) ∧ s.activity = .fin (3 / 5)) := by
  refine ⟨aggRun_totals_sum, aggRun_parties_sum,
    fun pd res geo i f T G hgeo hT hG => aggregate_guard pd res geo i f T G hgeo hT hG,
    aggregate_empty_group, aggRun_ex_totalVotes, aggRun_ex_totalEligible, ?_, ?_, ?_⟩
  · have h := aggRun_parties_sum resEx placesEx "A" resEx_results_fin
    rw [contrib_resEx] at h
    rw [h, if_pos (by decide)]
    simp [partyVotesIn, votesQ, finVotes, entryEx1, entryEx2,
      List.filter_cons]
    norm_num
  · have h := aggRun_parties_sum resEx placesEx "B" resEx_results_fin
    rw [contrib_resEx] at h
    rw [h, if_pos (by decide)]
    simp [partyVotesIn, votesQ, finVotes, entryEx1, entryEx2,
      List.filter_cons]
    norm_num
  · have hfe : placesEx.filter (fun p => p.obshtina == (Feature.mk "M" "").name)
        = placesEx := by decide
    have hT : (aggRun resEx (placesEx.filter
        (fun p => p.obshtina == (Feature.mk "M" "").name))).totalVotes
        = .num (.fin 300) := by rw [hfe]; exact aggRun_ex_totalVotes
    have hG : (aggRun resEx (placesEx.filter
        (fun p => p.obshtina == (Feature.mk "M" "").name))).totalEligible
        = .num (.fin 500) := by rw [hfe]; exact aggRun_ex_totalEligible
    rcases (aggregate_guard placesEx resEx [⟨"M", ""⟩] 0 ⟨"M", ""⟩ 300 500 rfl hT hG).1
        (by norm_num) with ⟨s, h1, h2, h3⟩
    refine ⟨s, h1, h2, ?_⟩
    rw [h3, if_pos (by norm_num)]
    norm_num

/-- Witness for C3: the sums theorem applied at the example inputs. -/
theorem aggregate_rollup_witness :
    (aggRun resEx placesEx).totalVotes
      = .num (.fin (((contrib resEx placesEx).map finTotal).sum)) ∧
    (aggRun resEx placesEx).totalEligible
      = .num (.fin (((contrib resEx placesEx).map finEligible).sum)) :=
  aggregate_rollup.1 resEx placesEx resEx_totals_fin

end Izbori
